import Mathlib

/-!
Verification of the LexFlow license generator (scripts/generate_license_v2.py)
against its natural-language specification.

The development shallowly embeds the v2 script: strings are lists of unicode
scalar values (Lean `Char`), byte strings are lists of `Nat` below 256, and the
Python library routines the script calls (`base64`, `json`, `str.split`,
`str.strip`) are modelled from their documented and observed CPython semantics
on the data this program handles.  Cryptographic primitives (Ed25519, AES-GCM,
Scrypt) are abstracted as explicit function parameters, because every claim
under consideration depends only on the control flow around them, never on the
mathematics inside them.
-/

set_option linter.unusedVariables false

set_option maxRecDepth 4000

namespace LexFlow

/-! ## Definitions -/

/-- Whitespace test used by Python's str.strip, restricted to the ASCII
whitespace characters (the only ones relevant to the ASCII token data this
program strips). -/
def isPySpace (c : Char) : Bool :=
  c.toNat = 32 || c.toNat = 9 || c.toNat = 10 || c.toNat = 13 ||
    c.toNat = 11 || c.toNat = 12

/-- Python str.strip: remove leading and trailing whitespace. -/
def pyStrip (s : List Char) : List Char :=
  ((s.dropWhile isPySpace).reverse.dropWhile isPySpace).reverse

/-- Python str.split(sep) for a one-character separator: splitting the empty
string gives one empty field, and every separator occurrence opens a field. -/
def pySplit (sep : Char) : List Char → List (List Char)
  | [] => [[]]
  | c :: r =>
    if c = sep then [] :: pySplit sep r
    else
      match pySplit sep r with
      | [] => [[c]]
      | h :: t => (c :: h) :: t

/-! ### Base64 (URL-safe, as used by base64.urlsafe_b64encode / _b64decode) -/

/-- Character of a 6-bit index in the URL-safe Base64 alphabet.  The function
is total on Nat; indices 63 and above give the final alphabet character, and
the encoder below only ever passes reduced values. -/
def b64char (n : Nat) : Char :=
  if n < 26 then Char.ofNat (65 + n)
  else if n < 52 then Char.ofNat (97 + (n - 26))
  else if n < 62 then Char.ofNat (48 + (n - 52))
  else if n = 62 then '-'
  else '_'

/-- Value of a Base64 character.  Accepts both the URL-safe and the standard
alphabet, matching urlsafe_b64decode, which first translates the minus and
underscore and leaves plus and slash decodable. -/
def b64val (c : Char) : Option Nat :=
  if 65 ≤ c.toNat ∧ c.toNat ≤ 90 then some (c.toNat - 65)
  else if 97 ≤ c.toNat ∧ c.toNat ≤ 122 then some (c.toNat - 97 + 26)
  else if 48 ≤ c.toNat ∧ c.toNat ≤ 57 then some (c.toNat - 48 + 52)
  else if c = '-' ∨ c = '+' then some 62
  else if c = '_' ∨ c = '/' then some 63
  else none

/-- Composition of base64.urlsafe_b64encode with .rstrip('='), as performed on
the payload and the signature in cmd_generate: 3-byte groups become 4
characters, a trailing 1- or 2-byte group becomes 2 or 3 characters and the
padding is stripped. -/
def b64enc : List Nat → List Char
  | [] => []
  | [x] => [b64char (x / 4), b64char (x % 4 * 16)]
  | [x, y] => [b64char (x / 4), b64char (x % 4 * 16 + y / 16), b64char (y % 16 * 4)]
  | x :: y :: z :: r =>
    b64char (x / 4) :: b64char (x % 4 * 16 + y / 16) ::
      b64char (y % 16 * 4 + z / 64) :: b64char (z % 64) :: b64enc r

/-- CPython binascii.a2b_base64 in its default non-strict mode, exactly as
urlsafe_b64decode calls it (binascii.c, observed on CPython 3): characters
outside the alphabet are discarded and leave the pad counter alone; an equals
sign seen with no or one pending sextet is skipped; an equals sign with three
pending sextets finalises them into two bytes and terminates the decode,
ignoring the rest of the input; an equals sign with two pending sextets
terminates with one byte only when a pad is already pending (quad position
plus pads reaching four), otherwise it records the pad and the decode
continues; a data character resets the pad counter; leftover sextets at the
end of the input are a padding error.  pend holds the sextets of the current
quad (C quad_pos with the already-read bits), pads the pad counter of
binascii.c. -/
def a2b : List Char → List Nat → Nat → Option (List Nat)
  | [], pend, _ => if pend.isEmpty then some [] else none
  | ch :: r, pend, pads =>
    if ch = '=' then
      match pend with
      | [] => a2b r [] pads
      | [a] => a2b r [a] pads
      | [a, b] =>
        if 1 ≤ pads then some [a * 4 + b / 16] else a2b r [a, b] (pads + 1)
      | a :: b :: c :: _ => some [a * 4 + b / 16, b % 16 * 16 + c / 4]
    else
      match b64val ch with
      | none => a2b r pend pads
      | some v =>
        match pend with
        | [a, b, c] =>
          (a2b r [] 0).map fun t =>
            (a * 4 + b / 16) :: (b % 16 * 16 + c / 4) :: (c % 4 * 64 + v) :: t
        | _ => a2b r (pend ++ [v]) 0

/-- Model of base64.urlsafe_b64decode(s + '==') exactly as cmd_verify calls it
on the payload segment. -/
def urlsafeDecodePad2 (s : List Char) : Option (List Nat) :=
  a2b (s ++ ['=', '=']) [] 0

/-! ### UTF-8, as used by str.encode and by json.loads on byte input -/

/-- UTF-8 encoding of one unicode scalar value. -/
def utf8EncodeChar (c : Char) : List Nat :=
  if c.toNat < 0x80 then [c.toNat]
  else if c.toNat < 0x800 then [0xc0 + c.toNat / 64, 0x80 + c.toNat % 64]
  else if c.toNat < 0x10000 then
    [0xe0 + c.toNat / 4096, 0x80 + c.toNat / 64 % 64, 0x80 + c.toNat % 64]
  else
    [0xf0 + c.toNat / 262144, 0x80 + c.toNat / 4096 % 64,
      0x80 + c.toNat / 64 % 64, 0x80 + c.toNat % 64]

/-- UTF-8 encoding of a string, as str.encode produces it. -/
def utf8Encode : List Char → List Nat
  | [] => []
  | c :: r => utf8EncodeChar c ++ utf8Encode r

/-- Strict UTF-8 decoding, as json.loads applies to payload bytes; truncated,
overlong, surrogate, and out-of-range sequences are rejected.  The fuel
argument only bounds the recursion depth: one unit is spent per decoded
character, so the byte length used by the wrapper below always suffices. -/
def utf8DecodeF : Nat → List Nat → Option (List Char)
  | _, [] => some []
  | 0, _ :: _ => none
  | fuel + 1, b :: r =>
    if b < 0x80 then (utf8DecodeF fuel r).map (Char.ofNat b :: ·)
    else if b < 0xc2 then none
    else if b < 0xe0 then
      match r with
      | b2 :: r2 =>
        if 0x80 ≤ b2 ∧ b2 < 0xc0 then
          (utf8DecodeF fuel r2).map (Char.ofNat ((b - 0xc0) * 64 + (b2 - 0x80)) :: ·)
        else none
      | [] => none
    else if b < 0xf0 then
      match r with
      | b2 :: b3 :: r2 =>
        if (0x80 ≤ b2 ∧ b2 < 0xc0) ∧ (0x80 ≤ b3 ∧ b3 < 0xc0) ∧
            (b = 0xe0 → 0xa0 ≤ b2) ∧ (b = 0xed → b2 < 0xa0) then
          (utf8DecodeF fuel r2).map
            (Char.ofNat ((b - 0xe0) * 4096 + (b2 - 0x80) * 64 + (b3 - 0x80)) :: ·)
        else none
      | _ => none
    else if b < 0xf5 then
      match r with
      | b2 :: b3 :: b4 :: r2 =>
        if (0x80 ≤ b2 ∧ b2 < 0xc0) ∧ (0x80 ≤ b3 ∧ b3 < 0xc0) ∧
            (0x80 ≤ b4 ∧ b4 < 0xc0) ∧ (b = 0xf0 → 0x90 ≤ b2) ∧
            (b = 0xf4 → b2 < 0x90) then
          (utf8DecodeF fuel r2).map
            (Char.ofNat ((b - 0xf0) * 262144 + (b2 - 0x80) * 4096 +
              (b3 - 0x80) * 64 + (b4 - 0x80)) :: ·)
        else none
      | _ => none
    else none

/-- Strict UTF-8 decoding of a byte string. -/
def utf8Decode (bs : List Nat) : Option (List Char) :=
  utf8DecodeF bs.length bs

/-! ### The json.dumps model (default ensure_ascii, compact separators) -/

/-- Lower-case hexadecimal digit character. -/
def hexDig (n : Nat) : Char :=
  if n < 10 then Char.ofNat (48 + n) else Char.ofNat (87 + n)

/-- Four-digit lower-case hex rendering used in backslash-u escapes. -/
def hex4 (n : Nat) : List Char :=
  [hexDig (n / 4096 % 16), hexDig (n / 256 % 16), hexDig (n / 16 % 16), hexDig (n % 16)]

/-- Escaping of one character exactly as json.dumps with the default
ensure_ascii=True performs it: quote, backslash and the five short control
escapes first, printable ASCII verbatim, every other scalar value below
0x10000 as one backslash-u group, and astral characters as a surrogate
pair. -/
def escChar (c : Char) : List Char :=
  if c = '"' then ['\\', '"']
  else if c = '\\' then ['\\', '\\']
  else if c.toNat = 8 then ['\\', 'b']
  else if c.toNat = 9 then ['\\', 't']
  else if c.toNat = 10 then ['\\', 'n']
  else if c.toNat = 12 then ['\\', 'f']
  else if c.toNat = 13 then ['\\', 'r']
  else if 0x20 ≤ c.toNat ∧ c.toNat ≤ 0x7e then [c]
  else if c.toNat < 0x10000 then '\\' :: 'u' :: hex4 c.toNat
  else
    ('\\' :: 'u' :: hex4 (0xd800 + (c.toNat - 0x10000) / 1024)) ++
      ('\\' :: 'u' :: hex4 (0xdc00 + (c.toNat - 0x10000) % 1024))

def escString : List Char → List Char
  | [] => []
  | c :: r => escChar c ++ escString r

/-- JSON string literal: quote, escaped body, quote. -/
def dumpString (s : List Char) : List Char :=
  '"' :: (escString s ++ ['"'])

/-- Decimal digit character. -/
def digitChar (n : Nat) : Char := Char.ofNat (48 + n)

/-- Decimal digits of a natural number, most significant first.  The fuel
only bounds the recursion depth; the number itself always suffices, and the
wrapper natDigits below is fuel-independent (see natDigitsF_irrel). -/
def natDigitsF : Nat → Nat → List Char
  | 0, n => [digitChar n]
  | fuel + 1, n =>
    if n < 10 then [digitChar n] else natDigitsF fuel (n / 10) ++ [digitChar (n % 10)]

def natDigits (n : Nat) : List Char := natDigitsF n n

/-- Python's textual rendering of an int, as json.dumps emits it. -/
def pyIntRepr (i : Int) : List Char :=
  if i < 0 then '-' :: natDigits i.natAbs else natDigits i.natAbs

/-- JSON scalar values occurring in this program: strings and integers. -/
inductive JVal where
  | s (v : List Char)
  | i (v : Int)
deriving DecidableEq

def dumpJVal : JVal → List Char
  | .s v => dumpString v
  | .i v => pyIntRepr v

def dumpPair (p : List Char × JVal) : List Char :=
  dumpString p.1 ++ (':' :: dumpJVal p.2)

def dumpMembers : List (List Char × JVal) → List Char
  | [] => []
  | [p] => dumpPair p
  | p :: ps => dumpPair p ++ (',' :: dumpMembers ps)

/-- json.dumps(obj, separators=(',', ':')) for a flat string-and-int object,
given its pairs in insertion order (CPython dicts preserve insertion
order). -/
def pyJsonDumpsFlat (ps : List (List Char × JVal)) : List Char :=
  '{' :: (dumpMembers ps ++ ['}'])

/-! ### The json.loads model

The parser below models CPython json.loads on the sublanguage this program
reads and writes: one object whose keys are strings and whose values are
strings or integers.  Arrays, booleans, null, floats and nested objects are
rejected where json.loads would accept them; no token of this program
contains them, and every claim that quantifies over tokens does so through
an explicit parse-success hypothesis.  As in Python, strings may contain any
escape json.dumps emits, keys may repeat (the last occurrence wins in the
dict), and raw control characters inside strings are rejected (the parser is
strict).  A lone surrogate escape, which Python would keep as an unpaired
surrogate code unit, has no counterpart among unicode scalar values and is
rejected here; json.dumps never emits one. -/

def hexVal (c : Char) : Option Nat :=
  if 48 ≤ c.toNat ∧ c.toNat ≤ 57 then some (c.toNat - 48)
  else if 97 ≤ c.toNat ∧ c.toNat ≤ 102 then some (c.toNat - 87)
  else if 65 ≤ c.toNat ∧ c.toNat ≤ 70 then some (c.toNat - 55)
  else none

def parseHex4 (a b c d : Char) : Option Nat :=
  match hexVal a, hexVal b, hexVal c, hexVal d with
  | some x, some y, some z, some w => some (x * 4096 + y * 256 + z * 16 + w)
  | _, _, _, _ => none

/-- Decode one escape sequence after a backslash: the eight short escapes,
or a backslash-u group with surrogate pair recombination. -/
def unescapeOne (r : List Char) : Option (Char × List Char) :=
  match r with
  | [] => none
  | e :: r2 =>
    if e = 'u' then
      match r2 with
      | a :: b :: c2 :: d :: r3 =>
        match parseHex4 a b c2 d with
        | none => none
        | some n =>
          if n < 0xd800 ∨ 0xe000 ≤ n then some (Char.ofNat n, r3)
          else if n < 0xdc00 then
            match r3 with
            | e2 :: u2 :: a2 :: b2 :: c3 :: d2 :: r4 =>
              if e2 = '\\' ∧ u2 = 'u' then
                match parseHex4 a2 b2 c3 d2 with
                | none => none
                | some m =>
                  if 0xdc00 ≤ m ∧ m < 0xe000 then
                    some (Char.ofNat (0x10000 + (n - 0xd800) * 1024 + (m - 0xdc00)), r4)
                  else none
              else none
            | _ => none
          else none
      | _ => none
    else if e = '"' then some ('"', r2)
    else if e = '\\' then some ('\\', r2)
    else if e = '/' then some ('/', r2)
    else if e = 'b' then some (Char.ofNat 8, r2)
    else if e = 'f' then some (Char.ofNat 12, r2)
    else if e = 'n' then some (Char.ofNat 10, r2)
    else if e = 'r' then some (Char.ofNat 13, r2)
    else if e = 't' then some (Char.ofNat 9, r2)
    else none

/-- Body of a JSON string literal after the opening quote.  Fuel bounds
recursion depth at one unit per produced character; the input length plus one
always suffices. -/
def parseStrBodyF : Nat → List Char → Option (List Char × List Char)
  | _, [] => none
  | 0, _ :: _ => none
  | fuel + 1, c :: r =>
    if c = '"' then some ([], r)
    else if c = '\\' then
      match unescapeOne r with
      | none => none
      | some (d, r2) => (parseStrBodyF fuel r2).map fun p => (d :: p.1, p.2)
    else if c.toNat < 0x20 then none
    else (parseStrBodyF fuel r).map fun p => (c :: p.1, p.2)

def digitVal (c : Char) : Option Nat :=
  if 48 ≤ c.toNat ∧ c.toNat ≤ 57 then some (c.toNat - 48) else none

/-- Longest leading run of decimal digits, as values, plus the rest. -/
def takeDigits : List Char → List Nat × List Char
  | [] => ([], [])
  | c :: r =>
    match digitVal c with
    | some v =>
      let p := takeDigits r
      (v :: p.1, p.2)
    | none => ([], c :: r)

/-- Value of a digit run, most significant first. -/
def digitsVal (ds : List Nat) : Nat :=
  ds.foldl (fun a d => a * 10 + d) 0

/-- JSON unsigned integer literal: digits with no leading zero, as the json
number grammar requires. -/
def parseUIntTok (s : List Char) : Option (Nat × List Char) :=
  match takeDigits s with
  | ([], _) => none
  | (d :: ds, rest) =>
    if d = 0 ∧ ds ≠ [] then none else some (digitsVal (d :: ds), rest)

/-- JSON integer literal with optional minus sign.  Floats (a following dot
or exponent) are outside the modelled sublanguage and lead to rejection at
the next separator. -/
def parseIntTok : List Char → Option (Int × List Char)
  | [] => none
  | c :: r =>
    if c = '-' then (parseUIntTok r).map fun p => (-(p.1 : Int), p.2)
    else (parseUIntTok (c :: r)).map fun p => ((p.1 : Int), p.2)

def isJsonWs (c : Char) : Bool :=
  c == ' ' || c == '\t' || c == '\n' || c == '\r'

def skipWs (s : List Char) : List Char :=
  s.dropWhile isJsonWs

/-- One JSON scalar value: a string literal or an integer. -/
def parseJVal (fuel : Nat) (s : List Char) : Option (JVal × List Char) :=
  match s with
  | [] => none
  | c :: r =>
    if c = '"' then (parseStrBodyF fuel r).map fun p => (JVal.s p.1, p.2)
    else (parseIntTok (c :: r)).map fun p => (JVal.i p.1, p.2)

/-- Members of a nonempty object: key, colon, value, then a comma to continue
or a closing brace to finish.  One fuel unit per member. -/
def parsePairsF : Nat → List Char → Option (List (List Char × JVal) × List Char)
  | 0, _ => none
  | fuel + 1, s =>
    match skipWs s with
    | [] => none
    | c :: r =>
      if c = '"' then
        match parseStrBodyF (r.length + 1) r with
        | none => none
        | some (k, r2) =>
          match skipWs r2 with
          | [] => none
          | c2 :: r3 =>
            if c2 = ':' then
              match parseJVal (r3.length + 1) (skipWs r3) with
              | none => none
              | some (v, r4) =>
                match skipWs r4 with
                | [] => none
                | c3 :: r5 =>
                  if c3 = ',' then
                    (parsePairsF fuel r5).map fun p => ((k, v) :: p.1, p.2)
                  else if c3 = '}' then some ([(k, v)], r5)
                  else none
            else none
      else none

/-- One JSON object of the flat sublanguage. -/
def parseObjFlat (s : List Char) : Option (List (List Char × JVal) × List Char) :=
  match skipWs s with
  | [] => none
  | c :: r =>
    if c = '{' then
      match skipWs r with
      | [] => none
      | c2 :: r2 => if c2 = '}' then some ([], r2) else parsePairsF (r.length + 1) r
    else none

/-- json.loads on the flat sublanguage: parse one object and require that
only whitespace follows, as Python raises on extra data. -/
def pyJsonLoadsFlat (s : List Char) : Option (List (List Char × JVal)) :=
  match parseObjFlat s with
  | some (ps, rest) => if (skipWs rest).isEmpty then some ps else none
  | none => none

/-- Lookup in the dict json.loads builds from the pairs, with a default, as
dict.get: a later duplicate key overrides an earlier one. -/
def dictGet : List (List Char × JVal) → List Char → JVal → JVal
  | [], _, dflt => dflt
  | (k, v) :: rest, key, dflt => dictGet rest key (if k = key then v else dflt)

/-! ### Round trip of the integer codec -/

/-- Digit values of natDigits, most significant first. -/
def natDigitVals (n : Nat) : List Nat :=
  if n < 10 then [n] else natDigitVals (n / 10) ++ [n % 10]
termination_by n
decreasing_by omega

/-- A list whose head is not a digit. -/
def noDigitHead : List Char → Prop
  | [] => True
  | c :: _ => digitVal c = none

/-- Size bound governing the fuel a value parse needs. -/
def jvalSize : JVal → Nat
  | .s v => v.length
  | .i _ => 0

/-- The raw characters contained in a scalar value. -/
def jvalChars : JVal → List Char
  | .s v => v
  | .i _ => []

/-! ### The license payload, cmd_generate's mint, and cmd_verify's parse

Embedded from src/scripts/generate_license_v2.py.  Interactive prompting and
human-readable rendering (the strftime display of the expiry date, the table
printing) are CLI glue outside the core, per the specification's scope, and
are not modelled. -/

/-- The license payload of cmd_generate lines 190 to 196: client name, expiry
in epoch milliseconds, license id, and the 128-bit hex nonce. -/
structure LicensePayload where
  c : List Char
  e : Int
  id : List Char
  n : List Char
deriving DecidableEq

/-- The payload dict in its insertion order c, e, id, n; CPython dicts
preserve insertion order and json.dumps serializes in that order. -/
def payloadPairs (p : LicensePayload) : List (List Char × JVal) :=
  [(['c'], .s p.c), (['e'], .i p.e), (['i', 'd'], .s p.id), (['n'], .s p.n)]

/-- payload_json of line 198: json.dumps(license_payload, separators=(',', ':'))
followed by .encode('utf-8') happens in payloadBytes below. -/
def payloadJson (p : LicensePayload) : List Char :=
  pyJsonDumpsFlat (payloadPairs p)

/-- The UTF-8 bytes of the canonical payload JSON. -/
def payloadBytes (p : LicensePayload) : List Nat :=
  utf8Encode (payloadJson p)

/-- payload_b64 of line 199: URL-safe Base64 of the payload bytes, padding
stripped. -/
def payloadB64 (p : LicensePayload) : List Char :=
  b64enc (payloadBytes p)

/-- The LXFW magic prefix. -/
def lxfw : List Char := ['L', 'X', 'F', 'W']

/-- The ASCII bytes that get signed, line 202: payload_b64.encode('utf-8'). -/
def signedBytes (p : LicensePayload) : List Nat :=
  utf8Encode (payloadB64 p)

/-- The final token of cmd_generate lines 202 to 206: LXFW, dot, payload_b64,
dot, Base64 of the Ed25519 signature over the ASCII bytes of payload_b64.
Ed25519 signing is abstracted as the sign parameter, a function from the
signed bytes to the signature bytes; no claim below depends on the signature
mathematics, and cmd_verify never inspects the signature at all. -/
def mint (sign : List Nat → List Nat) (p : LicensePayload) : List Char :=
  lxfw ++ ('.' :: (payloadB64 p ++ ('.' :: b64enc (sign (signedBytes p)))))

/-- Result of the payload extraction of cmd_verify lines 317 to 329: strip
the raw argument, split on the dot, require exactly 3 fields with the first
LXFW (else the malformed-token error), Base64-decode the second field with
two appended padding characters and json-parse the bytes (else the corrupt-
payload error). -/
inductive PayloadParse where
  | malformedToken
  | malformedPayload
  | parsed (ps : List (List Char × JVal))
deriving DecidableEq

def verifyPayload (raw : List Char) : PayloadParse :=
  let token := pyStrip raw
  match pySplit '.' token with
  | [p0, p1, p2] =>
    if p0 = lxfw then
      match urlsafeDecodePad2 p1 with
      | none => .malformedPayload
      | some bytes =>
        match utf8Decode bytes with
        | none => .malformedPayload
        | some chars =>
          match pyJsonLoadsFlat chars with
          | none => .malformedPayload
          | some ps => .parsed ps
    else .malformedToken
  | _ => .malformedToken

/-- The default string printed for a missing nonce. -/
def nAvailV1 : List Char := ['N', '/', 'A', ' ', '(', 'v', '1', ')']

/-- What cmd_verify reports for a parsed token, lines 331 to 339: the
displayed client, id and nonce values (dict.get with the printed defaults),
the expiry payload.get('e', 0), and the non-fatal flag expired = now_ms >
expiry_ms. -/
structure VerifyOut where
  c : JVal
  id : JVal
  n : JVal
  e : Int
  expired : Bool
deriving DecidableEq

inductive VerifyResult where
  | malformedToken
  | malformedPayload
  | typeError
  | ok (o : VerifyOut)
deriving DecidableEq

/-- The payload half of cmd_verify: parse the token and report the payload
fields with the expired flag.  A payload whose e member is a string makes
the Python code raise an uncaught TypeError at the expiry arithmetic of
line 336; that crash is the typeError result.  An integer e can also crash
at that same line when it lies outside the range datetime.fromtimestamp
accepts; cmd_verify_display below adds that crash on top of this parse
result, which reports the fields and the flag the code computes whenever
the date formatting succeeds. -/
def verifyParse (now : Int) (raw : List Char) : VerifyResult :=
  match verifyPayload raw with
  | .malformedToken => .malformedToken
  | .malformedPayload => .malformedPayload
  | .parsed ps =>
    match dictGet ps ['e'] (.i 0) with
    | .s _ => .typeError
    | .i e =>
      .ok ⟨dictGet ps ['c'] (.s ['?']), dictGet ps ['i', 'd'] (.s ['?']),
        dictGet ps ['n'] (.s nAvailV1), e, decide (now > e)⟩

/-- Line 336 formats the expiry before the expired flag of line 338 exists:
datetime.fromtimestamp(expiry_ms / 1000).strftime('%Y-%m-%d %H:%M').  An
integer expiry outside the range datetime.fromtimestamp accepts raises an
uncaught ValueError there (an astronomically large one an OverflowError at
the division), and the command dies with a traceback after printing only the
client, id and nonce lines.  Which millisecond values succeed depends on the
local timezone, so the model takes the success predicate as a parameter ok;
displaySound is the bound every CPython run obeys: fromtimestamp demands a
local datetime within year 1 to 9999, hence a timestamp within a day of the
interval -62135596800 to 253402300799 seconds, and every accepted expiry_ms
lies well inside the slack interval below. -/
def displaySound (ok : Int → Bool) : Prop :=
  ∀ ms : Int, ok ms = true → -70000000000000 < ms ∧ ms < 260000000000000

/-- The UTC instance of the line 336 success predicate: with TZ=UTC,
datetime.fromtimestamp accepts exactly the timestamps from
0001-01-01T00:00:00 to the last microsecond of 9999-12-31. -/
def fromtimestampOkUTC (ms : Int) : Bool :=
  decide (-62135596800000 ≤ ms ∧ ms ≤ 253402300799999)

/-- Outcome of the whole payload half of cmd_verify, lines 317 to 343, the
uncaught line 336 crash included. -/
inductive VerifyRun where
  | malformedToken
  | malformedPayload
  | typeError
  | crashed
  | success (o : VerifyOut)
deriving DecidableEq

/-- cmd_verify's payload half with the expiry-format crash modelled: parse
as verifyParse, but when the integer expiry lies outside what
datetime.fromtimestamp accepts (the ok parameter), the command crashes at
line 336 and neither computes nor reports the expired flag. -/
def cmd_verify_display (ok : Int → Bool) (now : Int) (raw : List Char) :
    VerifyRun :=
  match verifyParse now raw with
  | .malformedToken => .malformedToken
  | .malformedPayload => .malformedPayload
  | .typeError => .typeError
  | .ok o => if ok o.e then .success o else .crashed

/-! ### The encrypted registry store and the ledger logic

Embedded from load_registry, save_registry, cmd_generate's registration
phase, cmd_list, cmd_stats and cmd_verify's registry lookup.  The
cryptographic primitives (Scrypt key derivation, AES-256-GCM encrypt and
authenticated decrypt, SHA-256 burn hashing) and the JSON serialization of
entry lists are abstracted as explicit function parameters: every claim here
concerns only the control flow around them. -/

/-- A registry entry as cmd_generate builds it, lines 229 to 238.  The two
ISO date strings are opaque display text here. -/
structure RegistryEntry where
  id : List Char
  client : List Char
  issued_at : List Char
  expires_at : List Char
  expiry_ms : Int
  burn_hash : List Char
  status : List Char
  nonce : List Char
deriving DecidableEq

/-- The two on-disk artifacts the registry store touches: the encrypted
registry blob and the unencrypted salt, each either absent or holding
bytes. -/
structure RegFS where
  registryFile : Option (List Nat)
  saltFile : Option (List Nat)
deriving DecidableEq

/-- Outcome of load_registry, lines 72 to 97: either an entry list is
returned to the caller, or the command is terminated by sys.exit(1) after
the wrong-password-or-corrupt message — the RegistryAuthFailure path. -/
inductive LoadResult where
  | entries (l : List RegistryEntry)
  | fatalExit
deriving DecidableEq

/-- load_registry: kdf stands for derive_registry_key (Scrypt), decrypt for
AESGCM(key).decrypt(nonce, ciphertext, None) with none for an InvalidTag or
any other raise, parseEntries for json.loads on the plaintext; decrypt and
parse share one try block in the source.  Control flow from the source: a
missing registry file is first-run and yields the empty list; a missing salt
beside a present registry prints a corruption warning and also returns the
empty list (see the C4 analysis); a blob shorter than the 12-byte nonce
yields the empty list; a failed decrypt or entry parse prints the error and
exits. -/
def load_registry
    (decrypt : List Nat → List Nat → List Nat → Option (List Nat))
    (parseEntries : List Nat → Option (List RegistryEntry))
    (kdf : List Char → List Nat → List Nat)
    (password : List Char) (fs : RegFS) : LoadResult :=
  match fs.registryFile with
  | none => .entries []
  | some data =>
    match fs.saltFile with
    | none => .entries []
    | some salt =>
      if data.length < 12 then .entries []
      else
        match decrypt (kdf password salt) (data.take 12) (data.drop 12) with
        | none => .fatalExit
        | some pt =>
          match parseEntries pt with
          | none => .fatalExit
          | some l => .entries l

/-- A command either runs to completion with a result or is aborted. -/
inductive CommandOutcome (α : Type) where
  | completed (a : α)
  | aborted
deriving DecidableEq

/-- The registry-reading skeleton shared by the list, export and stats
commands and by the registration phase of generate: load the registry and
continue with the entries; the fatal exit of load_registry aborts the whole
command. -/
def cmd_list_run
    (decrypt : List Nat → List Nat → List Nat → Option (List Nat))
    (parseEntries : List Nat → Option (List RegistryEntry))
    (kdf : List Char → List Nat → List Nat)
    (password : List Char) (fs : RegFS) : CommandOutcome (List RegistryEntry) :=
  match load_registry decrypt parseEntries kdf password fs with
  | .fatalExit => .aborted
  | .entries l => .completed l

/-- The registry note cmd_verify prints, lines 345 to 358: the first entry
whose burn hash matches, not-found otherwise; skipped when load_registry
raised SystemExit, which the command catches with except SystemExit:
pass. -/
inductive RegistryNote where
  | found (e : RegistryEntry)
  | notFound
  | skipped
deriving DecidableEq

def cmd_verify_registry_phase
    (decrypt : List Nat → List Nat → List Nat → Option (List Nat))
    (parseEntries : List Nat → Option (List RegistryEntry))
    (kdf : List Char → List Nat → List Nat)
    (password : List Char) (fs : RegFS) (burnHash : List Char) : RegistryNote :=
  match load_registry decrypt parseEntries kdf password fs with
  | .fatalExit => .skipped
  | .entries l =>
    match l.find? (fun e => e.burn_hash == burnHash) with
    | some e => .found e
    | none => .notFound

/-- The whole verify command: parse and display the payload, returning early
(but completing) on a malformed token or payload, then attempt the registry
lookup with SystemExit caught; a non-integer expiry crashes the command with
an uncaught TypeError before the registry phase.  The burn hash of the token
(SHA-256 over the domain-separated token text) is abstracted as the burnHash
argument. -/
def cmd_verify_run
    (decrypt : List Nat → List Nat → List Nat → Option (List Nat))
    (parseEntries : List Nat → Option (List RegistryEntry))
    (kdf : List Char → List Nat → List Nat)
    (password : List Char) (fs : RegFS) (now : Int) (raw : List Char)
    (burnHash : List Char) : CommandOutcome (VerifyResult × Option RegistryNote) :=
  match verifyParse now raw with
  | .malformedToken => .completed (.malformedToken, none)
  | .malformedPayload => .completed (.malformedPayload, none)
  | .typeError => .aborted
  | .ok o => .completed (.ok o,
      some (cmd_verify_registry_phase decrypt parseEntries kdf password fs burnHash))

/-- One filesystem mutation. -/
inductive FsOp where
  | writeFile (path : List Char) (data : List Nat)
  | replaceFile (src dst : List Char)
deriving DecidableEq

def FsOp.isReplace : FsOp → Bool
  | .replaceFile _ _ => true
  | .writeFile _ _ => false

def registryPath : List Char := ".lexflow-issued-keys.enc".data

def saltPath : List Char := ".lexflow-registry-salt".data

/-- save_registry, lines 100 to 113, as its ordered trace of file
mutations: encrypt stands for AESGCM(key).encrypt(nonce, plaintext, None),
serializeEntries for json.dumps of the entry list, freshSalt and freshNonce
for the secrets.token_bytes draws.  The salt artifact is written only when
absent; then the registry file itself is written directly with write_bytes
as nonce plus ciphertext — the source uses no temporary file and no
rename. -/
def save_registry_ops
    (encrypt : List Nat → List Nat → List Nat → List Nat)
    (kdf : List Char → List Nat → List Nat)
    (serializeEntries : List RegistryEntry → List Nat)
    (freshSalt freshNonce : List Nat)
    (password : List Char) (fs : RegFS) (entries : List RegistryEntry) :
    List FsOp :=
  let salt := match fs.saltFile with
    | none => freshSalt
    | some s => s
  let saltOps := match fs.saltFile with
    | none => [FsOp.writeFile saltPath freshSalt]
    | some _ => []
  let ciphertext := encrypt (kdf password salt) freshNonce (serializeEntries entries)
  saltOps ++ [FsOp.writeFile registryPath (freshNonce ++ ciphertext)]

/-- The specification's description of save, stated from the spec's words
for comparison: the trace ends by writing a temporary path and atomically
renaming it over the registry path. -/
def specAtomicReplaceSave (ops : List FsOp) : Prop :=
  ∃ pre tmp data, tmp ≠ registryPath ∧
    ops = pre ++ [FsOp.writeFile tmp data, FsOp.replaceFile tmp registryPath]

def issuedStr : List Char := ['i', 's', 's', 'u', 'e', 'd']

def activatedStr : List Char := ['a', 'c', 't', 'i', 'v', 'a', 't', 'e', 'd']

def revokedStr : List Char := ['r', 'e', 'v', 'o', 'k', 'e', 'd']

/-- The status text shown for an expired entry; the source prints the
Italian word scaduta. -/
def scadutaStr : List Char := ['s', 'c', 'a', 'd', 'u', 't', 'a']

/-- The display-time status derivation of cmd_list lines 286 to 292; the
same three-way condition counts expired entries in cmd_stats lines 403 to
406.  If expiry_ms > 0 and now_ms > expiry_ms and the stored status is not
revoked, the shown status becomes the expired text; otherwise the stored
status is shown verbatim. -/
def effective_status (en : RegistryEntry) (now_ms : Int) : List Char :=
  if en.expiry_ms > 0 ∧ now_ms > en.expiry_ms ∧ en.status ≠ revokedStr then
    scadutaStr
  else en.status

/-- Python str.lower restricted to its ASCII action, which is all the
comparison with the confirmation letter s needs. -/
def pyLower (s : List Char) : List Char := s.map Char.toLower

/-- Result of the registration phase of cmd_generate: the resulting
registry, whether append-and-save happened, and whether the duplicate-id
warning was printed. -/
structure GenerateOutcome where
  registry : List RegistryEntry
  saved : Bool
  warnedDuplicate : Bool
deriving DecidableEq

/-- The registration phase of cmd_generate, lines 221 to 240: collect the
ids already present; on a duplicate, warn and ask, and return without
appending or saving unless the stripped, lowered answer is the letter s;
otherwise append the entry and save. -/
def generate_register_step (registry : List RegistryEntry) (keyId : List Char)
    (entry : RegistryEntry) (confirmInput : List Char) : GenerateOutcome :=
  if keyId ∈ registry.map (·.id) then
    if pyLower (pyStrip confirmInput) ≠ ['s'] then ⟨registry, false, true⟩
    else ⟨registry ++ [entry], true, true⟩
  else ⟨registry ++ [entry], true, false⟩

/-! ### Concrete demonstration data -/

/-- A concrete payload: client Acme, expiry 0 ms, id A1, nonce text 00ff. -/
def pDemo : LicensePayload := ⟨['A', 'c', 'm', 'e'], 0, ['A', '1'], ['0', '0', 'f', 'f']⟩

/-- A second, definitionally independent copy of the same field values. -/
def pDemoCopy : LicensePayload :=
  ⟨['A', 'c', 'm', 'e'], 0, ['A', '1'], ['0', '0', 'f', 'f']⟩

/-- What cmd_verify reports for pDemo at any positive time. -/
def outDemo : VerifyOut := ⟨.s pDemo.c, .s pDemo.id, .s pDemo.n, 0, true⟩

/-- Token over pDemo whose signature segment decodes the three zero bytes. -/
def tokDemoA : List Char := mint (fun _ => [0, 0, 0]) pDemo

/-- The same token with the final byte of the signature changed from 0 to
1: the two tokens differ in exactly one byte of the signature segment. -/
def tokDemoB : List Char := mint (fun _ => [0, 0, 1]) pDemo

/-- A third token over pDemo used by the registry counterexample. -/
def tokDemoC : List Char := mint (fun _ => [7]) pDemo

/-- A registry state whose blob is present and long enough to reach the
decryption step, with a salt present. -/
def fsLocked : RegFS := ⟨some (List.replicate 12 0 ++ [1]), some [0]⟩

/-- A decryption oracle that always fails, modelling a wrong password or a
tampered ciphertext: AESGCM.decrypt raises InvalidTag. -/
def decryptFail : List Nat → List Nat → List Nat → Option (List Nat) :=
  fun _ _ _ => none

def parseNone : List Nat → Option (List RegistryEntry) := fun _ => none

def kdfZero : List Char → List Nat → List Nat := fun _ _ => []

def encId : List Nat → List Nat → List Nat → List Nat := fun _ _ pt => pt

def serEmpty : List RegistryEntry → List Nat := fun _ => []

/-- A concrete issued entry with id A1 and expiry 10 ms. -/
def enDemo : RegistryEntry :=
  ⟨['A', '1'], ['A', 'c', 'm', 'e'], [], [], 10, ['h'], issuedStr, []⟩

/-- A valid payload whose integer expiry, -10^14 ms, predates year 1 by far:
datetime.fromtimestamp rejects it in every timezone. -/
def pAncient : LicensePayload := ⟨['A'], -100000000000000, ['B'], ['0']⟩

/-- A second such payload with expiry -10^15 ms, used with a now value past
it. -/
def pAncient2 : LicensePayload := ⟨['B'], -1000000000000000, ['C'], ['1']⟩

/-- What verifyParse reports for pAncient2's token at now = 0: the fields
come back and now exceeds the expiry. -/
def outAncient2 : VerifyOut :=
  ⟨.s pAncient2.c, .s pAncient2.id, .s pAncient2.n, pAncient2.e, true⟩

/-! ## Theorems -/

/-- Membership of a small bound in the valid-codepoint predicate. -/
theorem isValidChar_of_lt {n : Nat} (h : n < 0xd800) : Nat.isValidChar n := Or.inl h

/-- Converting a valid codepoint to a character and back is the identity. -/
theorem toNat_ofNat_of_valid {n : Nat} (h : Nat.isValidChar n) :
    (Char.ofNat n).toNat = n := by
  rw [Char.ofNat, dif_pos h]; rfl

/-- Characters with different codepoints are different. -/
theorem ne_of_toNat_ne {c d : Char} (h : c.toNat ≠ d.toNat) : c ≠ d :=
  fun he => h (he ▸ rfl)

theorem dropWhile_eq_self_of_all {p : Char → Bool} :
    ∀ {s : List Char}, (∀ c ∈ s, p c = false) → s.dropWhile p = s
  | [], _ => rfl
  | c :: r, h => by
    simp only [List.dropWhile]
    rw [h c (by simp)]

theorem pyStrip_eq_self {s : List Char} (h : ∀ c ∈ s, isPySpace c = false) :
    pyStrip s = s := by
  unfold pyStrip
  rw [dropWhile_eq_self_of_all h, dropWhile_eq_self_of_all, List.reverse_reverse]
  intro c hc
  exact h c (List.mem_reverse.mp hc)

theorem pySplit_no_sep {sep : Char} :
    ∀ {s : List Char}, sep ∉ s → pySplit sep s = [s]
  | [], _ => rfl
  | c :: r, h => by
    have hc : c ≠ sep := fun he => h (he ▸ List.mem_cons_self c r)
    have hr : sep ∉ r := fun hm => h (List.mem_cons_of_mem c hm)
    simp only [pySplit, if_neg hc]
    rw [pySplit_no_sep hr]

theorem pySplit_append {sep : Char} :
    ∀ {a : List Char} (b : List Char), sep ∉ a →
      pySplit sep (a ++ sep :: b) = a :: pySplit sep b
  | [], b, _ => by simp [pySplit]
  | c :: r, b, h => by
    have hc : c ≠ sep := fun he => h (he ▸ List.mem_cons_self c r)
    have hr : sep ∉ r := fun hm => h (List.mem_cons_of_mem c hm)
    simp only [List.cons_append, pySplit, if_neg hc, List.append_eq]
    rw [pySplit_append b hr]

theorem b64val_b64char : ∀ n, n < 64 → b64val (b64char n) = some n := by decide

/-- Every character the alphabet function can produce has a codepoint in one
of the five alphabet bands. -/
theorem b64char_bands (n : Nat) :
    (b64char n).toNat = 45 ∨ (b64char n).toNat = 95 ∨
    (48 ≤ (b64char n).toNat ∧ (b64char n).toNat ≤ 57) ∨
    (65 ≤ (b64char n).toNat ∧ (b64char n).toNat ≤ 90) ∨
    (97 ≤ (b64char n).toNat ∧ (b64char n).toNat ≤ 122) := by
  unfold b64char
  split
  · rw [toNat_ofNat_of_valid (isValidChar_of_lt (by omega))]; omega
  · split
    · rw [toNat_ofNat_of_valid (isValidChar_of_lt (by omega))]; omega
    · split
      · rw [toNat_ofNat_of_valid (isValidChar_of_lt (by omega))]; omega
      · split
        · left; rfl
        · right; left; rfl

theorem b64char_ne_dot (n : Nat) : b64char n ≠ '.' := by
  apply ne_of_toNat_ne
  have h := b64char_bands n
  show (b64char n).toNat ≠ 46
  omega

theorem b64char_ne_eqs (n : Nat) : b64char n ≠ '=' := by
  apply ne_of_toNat_ne
  have h := b64char_bands n
  show (b64char n).toNat ≠ 61
  omega

theorem b64char_not_space (n : Nat) : isPySpace (b64char n) = false := by
  have h := b64char_bands n
  simp only [isPySpace, Bool.or_eq_false_iff, decide_eq_false_iff_not]
  omega

theorem mem_b64enc (bs : List Nat) (ch : Char) (h : ch ∈ b64enc bs) :
    ∃ n, ch = b64char n := by
  induction bs using b64enc.induct with
  | case1 => simp [b64enc] at h
  | case2 x =>
    simp only [b64enc, List.mem_cons, List.not_mem_nil, or_false] at h
    rcases h with h | h
    · exact ⟨_, h⟩
    · exact ⟨_, h⟩
  | case3 x y =>
    simp only [b64enc, List.mem_cons, List.not_mem_nil, or_false] at h
    rcases h with h | h | h
    · exact ⟨_, h⟩
    · exact ⟨_, h⟩
    · exact ⟨_, h⟩
  | case4 x y z r ih =>
    simp only [b64enc, List.mem_cons] at h
    rcases h with h | h | h | h | h
    · exact ⟨_, h⟩
    · exact ⟨_, h⟩
    · exact ⟨_, h⟩
    · exact ⟨_, h⟩
    · exact ih h

theorem a2b_cons0 {ch : Char} {r : List Char} {v p : Nat}
    (hne : ch ≠ '=') (hv : b64val ch = some v) :
    a2b (ch :: r) [] p = a2b r [v] 0 := by
  simp [a2b, hne, hv]

theorem a2b_cons1 {ch : Char} {r : List Char} {a v p : Nat}
    (hne : ch ≠ '=') (hv : b64val ch = some v) :
    a2b (ch :: r) [a] p = a2b r [a, v] 0 := by
  simp [a2b, hne, hv]

theorem a2b_cons2 {ch : Char} {r : List Char} {a b v p : Nat}
    (hne : ch ≠ '=') (hv : b64val ch = some v) :
    a2b (ch :: r) [a, b] p = a2b r [a, b, v] 0 := by
  simp [a2b, hne, hv]

theorem a2b_cons3 {ch : Char} {r : List Char} {a b c v p : Nat}
    (hne : ch ≠ '=') (hv : b64val ch = some v) :
    a2b (ch :: r) [a, b, c] p =
      (a2b r [] 0).map fun t =>
        (a * 4 + b / 16) :: (b % 16 * 16 + c / 4) :: (c % 4 * 64 + v) :: t := by
  simp [a2b, hne, hv]

theorem a2b_pad0 {r : List Char} {p : Nat} : a2b ('=' :: r) [] p = a2b r [] p := by
  simp [a2b]

theorem a2b_pad1 {r : List Char} {a p : Nat} :
    a2b ('=' :: r) [a] p = a2b r [a] p := by
  simp [a2b]

theorem a2b_pad2_first {r : List Char} {a b : Nat} :
    a2b ('=' :: r) [a, b] 0 = a2b r [a, b] 1 := by
  simp [a2b]

theorem a2b_pad2_stop {r : List Char} {a b p : Nat} (hp : 1 ≤ p) :
    a2b ('=' :: r) [a, b] p = some [a * 4 + b / 16] := by
  simp [a2b, hp]

theorem a2b_pad3 {r : List Char} {a b c p : Nat} :
    a2b ('=' :: r) [a, b, c] p = some [a * 4 + b / 16, b % 16 * 16 + c / 4] := by
  simp [a2b]

/-- Round trip: decoding with two appended padding characters, exactly as
cmd_verify does, inverts the stripped encoding cmd_generate produces. -/
theorem a2b_b64enc : ∀ (bs : List Nat), (∀ b ∈ bs, b < 256) →
    a2b (b64enc bs ++ ['=', '=']) [] 0 = some bs := by
  have main : ∀ (n : Nat) (bs : List Nat), bs.length ≤ n → (∀ b ∈ bs, b < 256) →
      a2b (b64enc bs ++ ['=', '=']) [] 0 = some bs := by
    intro n
    induction n with
    | zero =>
      intro bs hlen _
      have : bs = [] := List.eq_nil_of_length_eq_zero (Nat.le_zero.mp hlen)
      subst this
      simp [b64enc, a2b_pad0, a2b]
    | succ n ih =>
      intro bs hlen hlt
      match bs with
      | [] => simp [b64enc, a2b_pad0, a2b]
      | [x] =>
        have hx : x < 256 := hlt x (by simp)
        simp only [b64enc, List.cons_append, List.nil_append]
        rw [a2b_cons0 (b64char_ne_eqs _) (b64val_b64char _ (by omega)),
          a2b_cons1 (b64char_ne_eqs _) (b64val_b64char _ (by omega)),
          a2b_pad2_first, a2b_pad2_stop (Nat.le_refl 1)]
        congr 1
        have : x / 4 * 4 + x % 4 * 16 / 16 = x := by omega
        rw [this]
      | [x, y] =>
        have hx : x < 256 := hlt x (by simp)
        have hy : y < 256 := hlt y (by simp)
        simp only [b64enc, List.cons_append, List.nil_append]
        rw [a2b_cons0 (b64char_ne_eqs _) (b64val_b64char _ (by omega)),
          a2b_cons1 (b64char_ne_eqs _) (b64val_b64char _ (by omega)),
          a2b_cons2 (b64char_ne_eqs _) (b64val_b64char _ (by omega)),
          a2b_pad3]
        congr 1
        have h1 : x / 4 * 4 + (x % 4 * 16 + y / 16) / 16 = x := by omega
        have h2 : (x % 4 * 16 + y / 16) % 16 * 16 + y % 16 * 4 / 4 = y := by omega
        rw [h1, h2]
      | x :: y :: z :: r =>
        have hx : x < 256 := hlt x (by simp)
        have hy : y < 256 := hlt y (by simp)
        have hz : z < 256 := hlt z (by simp)
        have hr : ∀ b ∈ r, b < 256 := fun b hb => hlt b (by simp [hb])
        simp only [b64enc, List.cons_append]
        rw [a2b_cons0 (b64char_ne_eqs _) (b64val_b64char _ (by omega)),
          a2b_cons1 (b64char_ne_eqs _) (b64val_b64char _ (by omega)),
          a2b_cons2 (b64char_ne_eqs _) (b64val_b64char _ (by omega)),
          a2b_cons3 (b64char_ne_eqs _) (b64val_b64char _ (by omega)),
          ih r (by simp at hlen; omega) hr]
        simp only [Option.map_some']
        congr 1
        have h1 : x / 4 * 4 + (x % 4 * 16 + y / 16) / 16 = x := by omega
        have h2 : (x % 4 * 16 + y / 16) % 16 * 16 + (y % 16 * 4 + z / 64) / 4 = y := by
          omega
        have h3 : (y % 16 * 4 + z / 64) % 4 * 64 + z % 64 = z := by omega
        rw [h1, h2, h3]
  exact fun bs => main bs.length bs (Nat.le_refl _)

/-- Encoding a pure-ASCII string is the identity on codepoints. -/
theorem utf8Encode_ascii :
    ∀ {s : List Char}, (∀ c ∈ s, c.toNat < 128) → utf8Encode s = s.map Char.toNat
  | [], _ => rfl
  | c :: r, h => by
    have hc : c.toNat < 128 := h c (by simp)
    simp only [utf8Encode, utf8EncodeChar, if_pos hc, List.map_cons,
      List.singleton_append, List.cons.injEq, true_and]
    exact utf8Encode_ascii fun d hd => h d (by simp [hd])

/-- Decoding the codepoints of a pure-ASCII string recovers the string,
under any sufficient fuel. -/
theorem utf8DecodeF_ascii :
    ∀ (s : List Char) (fuel : Nat), s.length ≤ fuel → (∀ c ∈ s, c.toNat < 128) →
      utf8DecodeF fuel (s.map Char.toNat) = some s := by
  intro s
  induction s with
  | nil =>
    intro fuel _ _
    cases fuel <;> rfl
  | cons c r ih =>
    intro fuel hlen h
    match fuel with
    | 0 => simp at hlen
    | fuel + 1 =>
      have hc : c.toNat < 128 := h c (by simp)
      have ihr := ih fuel (by simp at hlen; omega) fun d hd => h d (by simp [hd])
      simp only [List.map_cons, utf8DecodeF, if_pos hc, ihr, Option.map_some']
      rw [Char.ofNat_toNat]

/-- Decoding the codepoints of a pure-ASCII string recovers the string. -/
theorem utf8Decode_ascii {s : List Char} (h : ∀ c ∈ s, c.toNat < 128) :
    utf8Decode (s.map Char.toNat) = some s := by
  unfold utf8Decode
  rw [List.length_map]
  exact utf8DecodeF_ascii s s.length (Nat.le_refl _) h

theorem natDigitsF_irrel : ∀ (f1 n f2 : Nat), n ≤ f1 → n ≤ f2 →
    natDigitsF f1 n = natDigitsF f2 n := by
  intro f1
  induction f1 with
  | zero =>
    intro n f2 h1 h2
    have hn : n = 0 := by omega
    subst hn
    cases f2 with
    | zero => rfl
    | succ h => simp [natDigitsF]
  | succ g ih =>
    intro n f2 h1 h2
    cases f2 with
    | zero =>
      have hn : n = 0 := by omega
      subst hn
      simp [natDigitsF]
    | succ h =>
      by_cases hten : n < 10
      · simp [natDigitsF, if_pos hten]
      · simp only [natDigitsF, if_neg hten]
        rw [ih (n / 10) h (by omega) (by omega)]

/-- The defining recurrence of natDigits, independent of the fuel. -/
theorem natDigits_eq (n : Nat) : natDigits n =
    if n < 10 then [digitChar n] else natDigits (n / 10) ++ [digitChar (n % 10)] := by
  unfold natDigits
  cases n with
  | zero => rfl
  | succ k =>
    by_cases hten : k + 1 < 10
    · simp [natDigitsF, if_pos hten]
    · simp only [natDigitsF, if_neg hten]
      rw [natDigitsF_irrel k ((k + 1) / 10) ((k + 1) / 10) (by omega) (Nat.le_refl _)]

/-! ### Round trip of the string codec -/

theorem hexVal_hexDig : ∀ n, n < 16 → hexVal (hexDig n) = some n := by decide

theorem digitVal_digitChar : ∀ n, n < 10 → digitVal (digitChar n) = some n := by decide

theorem char_toNat_lt (c : Char) : c.toNat < 1114112 := by
  show c.val.toNat < 1114112
  rcases c.valid with h | ⟨h1, h2⟩ <;> omega

theorem char_not_surrogate (c : Char) : c.toNat < 0xd800 ∨ 0xe000 ≤ c.toNat := by
  show c.val.toNat < 0xd800 ∨ 0xe000 ≤ c.val.toNat
  rcases c.valid with h | ⟨h1, h2⟩ <;> omega

theorem parseHex4_hex4 (n : Nat) (h : n < 65536) :
    parseHex4 (hexDig (n / 4096 % 16)) (hexDig (n / 256 % 16)) (hexDig (n / 16 % 16))
      (hexDig (n % 16)) = some n := by
  have e : n / 4096 % 16 * 4096 + n / 256 % 16 * 256 + n / 16 % 16 * 16 + n % 16 = n := by
    omega
  unfold parseHex4
  rw [hexVal_hexDig _ (by omega), hexVal_hexDig _ (by omega), hexVal_hexDig _ (by omega),
    hexVal_hexDig _ (by omega)]
  exact congrArg some e

/-- Parser step on the terminating quote. -/
theorem parseStrBodyF_quote {fuel : Nat} {t : List Char} :
    parseStrBodyF (fuel + 1) ('"' :: t) = some ([], t) := by
  simp [parseStrBodyF]

/-- Parser step on an escape sequence. -/
theorem parseStrBodyF_esc {fuel : Nat} {r r2 : List Char} {d : Char}
    (h : unescapeOne r = some (d, r2)) :
    parseStrBodyF (fuel + 1) ('\\' :: r) =
      (parseStrBodyF fuel r2).map fun p => (d :: p.1, p.2) := by
  simp [parseStrBodyF, h]

/-- Parser step on an ordinary (unescaped, non-quote, non-backslash)
character. -/
theorem parseStrBodyF_cons_ord {c : Char} {t : List Char} {fuel : Nat}
    (h1 : c ≠ '"') (h2 : c ≠ '\\') (h3 : 0x20 ≤ c.toNat) :
    parseStrBodyF (fuel + 1) (c :: t) =
      (parseStrBodyF fuel t).map fun p => (c :: p.1, p.2) := by
  simp only [parseStrBodyF, if_neg h1, if_neg h2, if_neg (by omega : ¬ c.toNat < 0x20)]

/-- Unfolding of the escape decoder on a backslash-u head. -/
theorem unescapeOne_u_eq (a b c2 d : Char) (r3 : List Char) :
    unescapeOne ('u' :: a :: b :: c2 :: d :: r3) =
      match parseHex4 a b c2 d with
      | none => none
      | some n =>
        if n < 0xd800 ∨ 0xe000 ≤ n then some (Char.ofNat n, r3)
        else if n < 0xdc00 then
          match r3 with
          | e2 :: u2 :: a2 :: b2 :: c3 :: d2 :: r4 =>
            if e2 = '\\' ∧ u2 = 'u' then
              match parseHex4 a2 b2 c3 d2 with
              | none => none
              | some m =>
                if 0xdc00 ≤ m ∧ m < 0xe000 then
                  some (Char.ofNat (0x10000 + (n - 0xd800) * 1024 + (m - 0xdc00)), r4)
                else none
            else none
          | _ => none
        else none := rfl

/-- Decoding the backslash-u escape of a below-0x10000 scalar value. -/
theorem unescapeOne_hex {n : Nat} {t : List Char} (h : n < 65536)
    (hs : n < 0xd800 ∨ 0xe000 ≤ n) :
    unescapeOne ('u' :: (hex4 n ++ t)) = some (Char.ofNat n, t) := by
  simp only [hex4, List.cons_append, List.nil_append]
  rw [unescapeOne_u_eq, parseHex4_hex4 _ h]
  dsimp only
  rw [if_pos hs]

/-- Decoding a surrogate pair escape of an astral scalar value. -/
theorem unescapeOne_surrogate {n : Nat} {t : List Char}
    (h1 : 0x10000 ≤ n) (h2 : n < 0x110000) :
    unescapeOne ('u' :: (hex4 (0xd800 + (n - 0x10000) / 1024) ++
      ('\\' :: 'u' :: (hex4 (0xdc00 + (n - 0x10000) % 1024) ++ t)))) =
      some (Char.ofNat n, t) := by
  have hA : ¬(0xd800 + (n - 0x10000) / 1024 < 0xd800 ∨
      0xe000 ≤ 0xd800 + (n - 0x10000) / 1024) := by omega
  have hB : 0xd800 + (n - 0x10000) / 1024 < 0xdc00 := by omega
  have hC : 0xdc00 ≤ 0xdc00 + (n - 0x10000) % 1024 ∧
      0xdc00 + (n - 0x10000) % 1024 < 0xe000 := by omega
  have harg : 0x10000 + (0xd800 + (n - 0x10000) / 1024 - 0xd800) * 1024 +
      (0xdc00 + (n - 0x10000) % 1024 - 0xdc00) = n := by omega
  simp only [hex4, List.cons_append, List.nil_append]
  rw [unescapeOne_u_eq, parseHex4_hex4 _ (by omega)]
  dsimp only
  rw [if_neg hA, if_pos hB]
  rw [if_pos (And.intro rfl rfl), parseHex4_hex4 _ (by omega)]
  dsimp only
  rw [if_pos hC, harg]

/-- Parser step on the escape sequence json.dumps emits for one character. -/
theorem parseStrBodyF_escChar (c : Char) (fuel : Nat) (t : List Char) :
    parseStrBodyF (fuel + 1) (escChar c ++ t) =
      (parseStrBodyF fuel t).map fun p => (c :: p.1, p.2) := by
  unfold escChar
  by_cases h1 : c = '"'
  · rw [if_pos h1, h1]
    exact parseStrBodyF_esc rfl
  rw [if_neg h1]
  by_cases h2 : c = '\\'
  · rw [if_pos h2, h2]
    exact parseStrBodyF_esc rfl
  rw [if_neg h2]
  by_cases h3 : c.toNat = 8
  · have hc : c = Char.ofNat 8 := by rw [← h3, Char.ofNat_toNat]
    rw [if_pos h3]
    rw [hc]
    exact parseStrBodyF_esc rfl
  rw [if_neg h3]
  by_cases h4 : c.toNat = 9
  · have hc : c = Char.ofNat 9 := by rw [← h4, Char.ofNat_toNat]
    rw [if_pos h4]
    rw [hc]
    exact parseStrBodyF_esc rfl
  rw [if_neg h4]
  by_cases h5 : c.toNat = 10
  · have hc : c = Char.ofNat 10 := by rw [← h5, Char.ofNat_toNat]
    rw [if_pos h5]
    rw [hc]
    exact parseStrBodyF_esc rfl
  rw [if_neg h5]
  by_cases h6 : c.toNat = 12
  · have hc : c = Char.ofNat 12 := by rw [← h6, Char.ofNat_toNat]
    rw [if_pos h6]
    rw [hc]
    exact parseStrBodyF_esc rfl
  rw [if_neg h6]
  by_cases h7 : c.toNat = 13
  · have hc : c = Char.ofNat 13 := by rw [← h7, Char.ofNat_toNat]
    rw [if_pos h7]
    rw [hc]
    exact parseStrBodyF_esc rfl
  rw [if_neg h7]
  by_cases h8 : 0x20 ≤ c.toNat ∧ c.toNat ≤ 0x7e
  · rw [if_pos h8]
    simpa using parseStrBodyF_cons_ord h1 h2 h8.1
  rw [if_neg h8]
  by_cases h9 : c.toNat < 0x10000
  · rw [if_pos h9]
    simp only [List.cons_append, List.append_assoc]
    rw [parseStrBodyF_esc (unescapeOne_hex h9 (char_not_surrogate c)),
      Char.ofNat_toNat]
  · rw [if_neg h9]
    have hlt := char_toNat_lt c
    simp only [List.cons_append, List.append_assoc, List.nil_append]
    rw [parseStrBodyF_esc (unescapeOne_surrogate (by omega) hlt), Char.ofNat_toNat]

/-- Round trip of a whole dumped string body against the parser, under any
sufficient fuel. -/
theorem parseStrBodyF_escString :
    ∀ (s : List Char) (fuel : Nat) (t : List Char), s.length + 1 ≤ fuel →
      parseStrBodyF fuel (escString s ++ ('"' :: t)) = some (s, t) := by
  intro s
  induction s with
  | nil =>
    intro fuel t hf
    match fuel, hf with
    | fuel + 1, _ =>
      simpa [escString] using parseStrBodyF_quote
  | cons c r ih =>
    intro fuel t hf
    match fuel, hf with
    | fuel + 1, hf =>
      simp only [escString, List.append_assoc]
      rw [parseStrBodyF_escChar c fuel (escString r ++ ('"' :: t)),
        ih fuel t (by simp at hf; omega)]
      rfl

theorem digitChar_toNat {d : Nat} (h : d < 10) : (digitChar d).toNat = 48 + d := by
  unfold digitChar
  exact toNat_ofNat_of_valid (isValidChar_of_lt (by omega))

theorem natDigitVals_ne_nil (n : Nat) : natDigitVals n ≠ [] := by
  unfold natDigitVals
  split
  · simp
  · simp

theorem natDigitVals_head_pos :
    ∀ n, 1 ≤ n → ∀ d ds, natDigitVals n = d :: ds → 1 ≤ d := by
  intro n
  induction n using natDigitVals.induct with
  | case1 n h =>
    intro h1 d ds he
    rw [natDigitVals, if_pos h] at he
    cases he
    omega
  | case2 n h ih =>
    intro _ d ds he
    rw [natDigitVals, if_neg h] at he
    obtain ⟨e, es, hd⟩ := List.exists_cons_of_ne_nil (natDigitVals_ne_nil (n / 10))
    rw [hd, List.cons_append] at he
    injection he with h1 h2
    exact h1 ▸ ih (by omega) e es hd

theorem digitsVal_natDigitVals : ∀ n, digitsVal (natDigitVals n) = n := by
  intro n
  induction n using natDigitVals.induct with
  | case1 n h =>
    rw [natDigitVals, if_pos h]
    simp [digitsVal]
  | case2 n h ih =>
    rw [natDigitVals, if_neg h]
    unfold digitsVal at ih ⊢
    rw [List.foldl_append]
    simp only [List.foldl_cons, List.foldl_nil, ih]
    omega

theorem takeDigits_cons_digit {d : Nat} (h : d < 10) (t : List Char) :
    takeDigits (digitChar d :: t) =
      (d :: (takeDigits t).1, (takeDigits t).2) := by
  simp [takeDigits, digitVal_digitChar d h]

/-- takeDigits consumes a rendered number entirely and leaves the rest to the
inner invocation. -/
theorem takeDigits_natDigits :
    ∀ n t, takeDigits (natDigits n ++ t) =
      (natDigitVals n ++ (takeDigits t).1, (takeDigits t).2) := by
  intro n
  induction n using natDigitVals.induct with
  | case1 n h =>
    intro t
    rw [natDigits_eq, if_pos h, natDigitVals, if_pos h]
    simpa using takeDigits_cons_digit h t
  | case2 n h ih =>
    intro t
    rw [natDigits_eq, if_neg h, natDigitVals, if_neg h, List.append_assoc,
      List.singleton_append, ih (digitChar (n % 10) :: t),
      takeDigits_cons_digit (by omega) t]
    simp

theorem takeDigits_none {t : List Char} (h : noDigitHead t) :
    takeDigits t = ([], t) := by
  match t with
  | [] => rfl
  | c :: r =>
    simp only [noDigitHead] at h
    simp [takeDigits, h]

theorem parseUIntTok_natDigits (n : Nat) (t : List Char) (ht : noDigitHead t) :
    parseUIntTok (natDigits n ++ t) = some (n, t) := by
  unfold parseUIntTok
  rw [takeDigits_natDigits, takeDigits_none ht]
  simp only [List.append_nil]
  obtain ⟨d, ds, hd⟩ := List.exists_cons_of_ne_nil (natDigitVals_ne_nil n)
  rw [hd]
  dsimp only
  by_cases h10 : n < 10
  · have hnd : natDigitVals n = [n] := by rw [natDigitVals, if_pos h10]
    rw [hnd] at hd
    injection hd with h1 h2
    subst h1
    subst h2
    simp [digitsVal]
  · have hpos := natDigitVals_head_pos n (by omega) d ds hd
    rw [if_neg (by omega : ¬(d = 0 ∧ ds ≠ []))]
    rw [← hd, digitsVal_natDigitVals]

theorem natDigits_head : ∀ n, ∃ d r, natDigits n = digitChar d :: r ∧ d < 10 := by
  intro n
  induction n using natDigitVals.induct with
  | case1 n h =>
    exact ⟨n, [], by rw [natDigits_eq, if_pos h], h⟩
  | case2 n h ih =>
    obtain ⟨d, r, he, hd⟩ := ih
    exact ⟨d, r ++ [digitChar (n % 10)], by rw [natDigits_eq, if_neg h, he]; rfl, hd⟩

theorem parseIntTok_pyIntRepr (i : Int) (t : List Char) (ht : noDigitHead t) :
    parseIntTok (pyIntRepr i ++ t) = some (i, t) := by
  unfold pyIntRepr
  by_cases hneg : i < 0
  · rw [if_pos hneg]
    show parseIntTok ('-' :: (natDigits i.natAbs ++ t)) = some (i, t)
    simp only [parseIntTok, if_pos rfl]
    rw [parseUIntTok_natDigits i.natAbs t ht]
    simp only [Option.map_some']
    have hv : -((i.natAbs : Int)) = i := by omega
    rw [hv, if_pos trivial]
  · rw [if_neg hneg]
    obtain ⟨d, r, he, hd⟩ := natDigits_head i.natAbs
    have h45 : ('-' : Char).toNat = 45 := rfl
    have hne : digitChar d ≠ '-' := by
      apply ne_of_toNat_ne
      rw [digitChar_toNat hd, h45]
      omega
    rw [he, List.cons_append]
    simp only [parseIntTok, if_neg hne]
    rw [← List.cons_append, ← he, parseUIntTok_natDigits i.natAbs t ht]
    simp only [Option.map_some']
    have hv : ((i.natAbs : Int)) = i := by omega
    rw [hv]

/-! ### Round trip of the object codec -/

theorem escChar_length_pos (c : Char) : 1 ≤ (escChar c).length := by
  unfold escChar
  split_ifs <;> simp [hex4]

theorem escString_length_ge : ∀ s : List Char, s.length ≤ (escString s).length
  | [] => Nat.le_refl _
  | c :: r => by
    simp only [escString, List.length_cons, List.length_append]
    have h1 := escChar_length_pos c
    have h2 := escString_length_ge r
    omega

theorem jvalSize_le (v : JVal) : jvalSize v ≤ (dumpJVal v).length := by
  cases v with
  | s s' =>
    simp only [jvalSize, dumpJVal, dumpString, List.length_cons, List.length_append]
    have := escString_length_ge s'
    simp
    omega
  | i iv => simp [jvalSize]

theorem isJsonWs_eq_false {c : Char}
    (h : c.toNat ≠ 32 ∧ c.toNat ≠ 9 ∧ c.toNat ≠ 10 ∧ c.toNat ≠ 13) :
    isJsonWs c = false := by
  simp only [isJsonWs, Bool.or_eq_false_iff, beq_eq_false_iff_ne]
  exact ⟨⟨⟨ne_of_toNat_ne h.1, ne_of_toNat_ne h.2.1⟩, ne_of_toNat_ne h.2.2.1⟩,
    ne_of_toNat_ne h.2.2.2⟩

theorem skipWs_cons {c : Char} {r : List Char} (h : isJsonWs c = false) :
    skipWs (c :: r) = c :: r := by
  simp [skipWs, List.dropWhile, h]

theorem skipWs_dumpJVal (v : JVal) (X : List Char) :
    skipWs (dumpJVal v ++ X) = dumpJVal v ++ X := by
  cases v with
  | s s' =>
    simp only [dumpJVal, dumpString, List.cons_append]
    exact skipWs_cons (by decide)
  | i iv =>
    simp only [dumpJVal]
    unfold pyIntRepr
    by_cases hneg : iv < 0
    · rw [if_pos hneg]
      simp only [List.cons_append]
      exact skipWs_cons (by decide)
    · rw [if_neg hneg]
      obtain ⟨d, r, he, hd⟩ := natDigits_head iv.natAbs
      rw [he, List.cons_append]
      exact skipWs_cons (isJsonWs_eq_false (by rw [digitChar_toNat hd]; omega))

/-- Parsing the dumped form of a scalar value, given fuel for its size and a
continuation that does not extend an integer literal. -/
theorem parseJVal_dump (v : JVal) (fuel : Nat) (X : List Char)
    (hf : jvalSize v + 1 ≤ fuel) (hX : noDigitHead X) :
    parseJVal fuel (dumpJVal v ++ X) = some (v, X) := by
  cases v with
  | s s' =>
    simp only [dumpJVal, dumpString, List.cons_append, List.append_assoc,
      List.singleton_append, List.nil_append]
    simp only [parseJVal, if_pos rfl, if_true]
    rw [parseStrBodyF_escString s' fuel X (by simpa [jvalSize] using hf)]
    rfl
  | i iv =>
    have hint := parseIntTok_pyIntRepr iv X hX
    simp only [dumpJVal]
    unfold pyIntRepr at hint ⊢
    by_cases hneg : iv < 0
    · rw [if_pos hneg] at hint ⊢
      simp only [List.cons_append] at hint ⊢
      simp only [parseJVal, if_neg (by decide : ¬(('-' : Char) = '"'))]
      rw [hint]
      rfl
    · rw [if_neg hneg] at hint ⊢
      obtain ⟨d, r, he, hd⟩ := natDigits_head iv.natAbs
      rw [he, List.cons_append] at hint ⊢
      have h34 : ('"' : Char).toNat = 34 := rfl
      have hne : digitChar d ≠ '"' :=
        ne_of_toNat_ne (by rw [digitChar_toNat hd, h34]; omega)
      simp only [parseJVal, if_neg hne]
      rw [hint]
      rfl

theorem dumpPair_shape (k : List Char) (v : JVal) (Y : List Char) :
    dumpPair (k, v) ++ Y =
      '"' :: (escString k ++ ('"' :: (':' :: (dumpJVal v ++ Y)))) := by
  simp [dumpPair, dumpString, List.cons_append, List.append_assoc]

theorem dumpPair_length_pos (p : List Char × JVal) : 1 ≤ (dumpPair p).length := by
  obtain ⟨k, v⟩ := p
  simp [dumpPair, dumpString]

theorem dumpMembers_length_ge : ∀ ps : List (List Char × JVal),
    ps.length ≤ (dumpMembers ps).length
  | [] => Nat.le_refl _
  | [p] => by
    simpa [dumpMembers] using dumpPair_length_pos p
  | p :: q :: ps => by
    simp only [dumpMembers, List.length_append, List.length_cons]
    have h1 := dumpPair_length_pos p
    have h2 := dumpMembers_length_ge (q :: ps)
    simp only [List.length_cons] at h2
    omega

/-- Parsing one dumped member: key, colon, value, then dispatch on the
character that follows. -/
theorem parsePairsF_pair_step (k : List Char) (v : JVal) (fuel : Nat)
    (rest : List Char) (hrest : noDigitHead rest) :
    parsePairsF (fuel + 1) (dumpPair (k, v) ++ rest) =
      match skipWs rest with
      | [] => none
      | c3 :: r5 =>
        if c3 = ',' then (parsePairsF fuel r5).map fun p => ((k, v) :: p.1, p.2)
        else if c3 = '}' then some ([(k, v)], r5)
        else none := by
  rw [dumpPair_shape]
  simp only [parsePairsF]
  rw [skipWs_cons (by decide)]
  dsimp only
  rw [if_pos rfl]
  rw [parseStrBodyF_escString k _ _ (by
    simp only [List.length_append, List.length_cons]
    have := escString_length_ge k
    omega)]
  dsimp only
  rw [skipWs_cons (by decide)]
  dsimp only
  rw [if_pos rfl]
  rw [skipWs_dumpJVal]
  rw [parseJVal_dump v _ rest (by
    have := jvalSize_le v
    simp only [List.length_append]
    omega) hrest]

/-- Parsing the dumped members of a nonempty flat object. -/
theorem parsePairsF_dump :
    ∀ (ps : List (List Char × JVal)) (fuel : Nat) (t : List Char), ps ≠ [] →
      ps.length ≤ fuel →
      parsePairsF fuel (dumpMembers ps ++ ('}' :: t)) = some (ps, t) := by
  intro ps
  induction ps with
  | nil =>
    intro fuel t h
    exact absurd rfl h
  | cons p ps ih =>
    intro fuel t _ hlen
    obtain ⟨k, v⟩ := p
    match fuel, hlen with
    | fuel + 1, hlen =>
      cases ps with
      | nil =>
        rw [show dumpMembers [(k, v)] = dumpPair (k, v) from rfl,
          parsePairsF_pair_step k v fuel ('}' :: t) (show digitVal '}' = none by decide),
          skipWs_cons (by decide)]
        dsimp only
        rw [if_neg (by decide), if_pos rfl]
      | cons q ps2 =>
        rw [show dumpMembers ((k, v) :: q :: ps2) =
            dumpPair (k, v) ++ (',' :: dumpMembers (q :: ps2)) from rfl,
          List.append_assoc, List.cons_append,
          parsePairsF_pair_step k v fuel
            (',' :: (dumpMembers (q :: ps2) ++ ('}' :: t)))
            (show digitVal ',' = none by decide),
          skipWs_cons (by decide)]
        dsimp only
        rw [if_pos rfl]
        rw [ih fuel t (by simp) (by
          simp only [List.length_cons] at hlen ⊢
          omega)]
        rfl

/-- Parsing a whole dumped flat object. -/
theorem parseObjFlat_dump (ps : List (List Char × JVal)) (t : List Char) :
    parseObjFlat (pyJsonDumpsFlat ps ++ t) = some (ps, t) := by
  cases ps with
  | nil =>
    show parseObjFlat (('{' :: (dumpMembers [] ++ ['}'])) ++ t) = some ([], t)
    simp only [dumpMembers, List.nil_append, List.cons_append, List.singleton_append]
    simp only [parseObjFlat]
    rw [skipWs_cons (by decide)]
    dsimp only
    rw [if_pos rfl, skipWs_cons (by decide)]
    dsimp only
    rw [if_pos rfl]
  | cons p ps2 =>
    obtain ⟨k, v⟩ := p
    show parseObjFlat (('{' :: (dumpMembers ((k, v) :: ps2) ++ ['}'])) ++ t) =
      some ((k, v) :: ps2, t)
    have hmem : dumpMembers ((k, v) :: ps2) ++ ['}'] ++ t =
        dumpMembers ((k, v) :: ps2) ++ ('}' :: t) := by
      simp [List.append_assoc]
    have hshape : dumpMembers ((k, v) :: ps2) ++ ('}' :: t) =
        '"' :: ((dumpMembers ((k, v) :: ps2) ++ ('}' :: t)).tail) := by
      cases ps2 with
      | nil =>
        rw [show dumpMembers [(k, v)] = dumpPair (k, v) from rfl, dumpPair_shape]
        rfl
      | cons q ps3 =>
        rw [show dumpMembers ((k, v) :: q :: ps3) =
            dumpPair (k, v) ++ (',' :: dumpMembers (q :: ps3)) from rfl,
          List.append_assoc, List.cons_append, dumpPair_shape]
        rfl
    simp only [List.cons_append]
    rw [hmem]
    simp only [parseObjFlat]
    rw [skipWs_cons (by decide)]
    dsimp only
    rw [if_pos rfl]
    rw [show skipWs (dumpMembers ((k, v) :: ps2) ++ ('}' :: t)) =
        '"' :: ((dumpMembers ((k, v) :: ps2) ++ ('}' :: t)).tail) from by
      rw [hshape]
      exact skipWs_cons (by decide)]
    dsimp only
    rw [if_neg (by decide)]
    rw [parsePairsF_dump ((k, v) :: ps2) _ t (by simp) (by
      simp only [List.length_append, List.length_cons]
      have := dumpMembers_length_ge ((k, v) :: ps2)
      simp only [List.length_cons] at this
      omega)]

/-- Round trip of json.loads against json.dumps on a flat object. -/
theorem pyJsonLoadsFlat_dump (ps : List (List Char × JVal)) :
    pyJsonLoadsFlat (pyJsonDumpsFlat ps) = some ps := by
  unfold pyJsonLoadsFlat
  rw [show pyJsonDumpsFlat ps = pyJsonDumpsFlat ps ++ [] from by simp,
    parseObjFlat_dump ps []]
  rfl

/-! ### Character class facts about the dumped payload -/

theorem hexDig_band : ∀ n, n < 16 →
    (48 ≤ (hexDig n).toNat ∧ (hexDig n).toNat ≤ 57) ∨
    (97 ≤ (hexDig n).toNat ∧ (hexDig n).toNat ≤ 102) := by decide

theorem hexDig_mod_facts (n : Nat) : (hexDig (n % 16)).toNat < 128 ∧
    (hexDig (n % 16)).toNat ≠ 32 ∧ (hexDig (n % 16)).toNat ≠ 9 ∧
    (hexDig (n % 16)).toNat ≠ 10 ∧ (hexDig (n % 16)).toNat ≠ 13 := by
  rcases hexDig_band (n % 16) (Nat.mod_lt _ (by omega)) with hb | hb <;> omega

/-- Characters of one backslash-u escape group are ASCII and never
whitespace. -/
theorem escU_mem (m : Nat) (e : Char) (he : e ∈ '\\' :: 'u' :: hex4 m) :
    e.toNat < 128 ∧ e.toNat ≠ 32 ∧ e.toNat ≠ 9 ∧ e.toNat ≠ 10 ∧ e.toNat ≠ 13 := by
  simp only [hex4, List.mem_cons, List.not_mem_nil, or_false] at he
  rcases he with he | he | he | he | he | he
  · subst he; exact ⟨by decide, by decide, by decide, by decide, by decide⟩
  · subst he; exact ⟨by decide, by decide, by decide, by decide, by decide⟩
  all_goals
    subst he
    exact ⟨(hexDig_mod_facts _).1, (hexDig_mod_facts _).2.1,
      (hexDig_mod_facts _).2.2.1, (hexDig_mod_facts _).2.2.2.1,
      (hexDig_mod_facts _).2.2.2.2⟩

/-- Every character of an escape is ASCII, and is either the escaped
character itself or one of the never-whitespace escape alphabet
characters. -/
theorem escChar_mem (c : Char) : ∀ d ∈ escChar c, d.toNat < 128 ∧
    (d = c ∨ (d.toNat ≠ 32 ∧ d.toNat ≠ 9 ∧ d.toNat ≠ 10 ∧ d.toNat ≠ 13)) := by
  intro d hd
  unfold escChar at hd
  split_ifs at hd with h1 h2 h3 h4 h5 h6 h7 h8 h9
  · simp only [List.mem_cons, List.not_mem_nil, or_false] at hd
    rcases hd with hd | hd <;> subst hd <;> exact ⟨by decide, Or.inr (by decide)⟩
  · simp only [List.mem_cons, List.not_mem_nil, or_false] at hd
    rcases hd with hd | hd <;> subst hd <;> exact ⟨by decide, Or.inr (by decide)⟩
  · simp only [List.mem_cons, List.not_mem_nil, or_false] at hd
    rcases hd with hd | hd <;> subst hd <;> exact ⟨by decide, Or.inr (by decide)⟩
  · simp only [List.mem_cons, List.not_mem_nil, or_false] at hd
    rcases hd with hd | hd <;> subst hd <;> exact ⟨by decide, Or.inr (by decide)⟩
  · simp only [List.mem_cons, List.not_mem_nil, or_false] at hd
    rcases hd with hd | hd <;> subst hd <;> exact ⟨by decide, Or.inr (by decide)⟩
  · simp only [List.mem_cons, List.not_mem_nil, or_false] at hd
    rcases hd with hd | hd <;> subst hd <;> exact ⟨by decide, Or.inr (by decide)⟩
  · simp only [List.mem_cons, List.not_mem_nil, or_false] at hd
    rcases hd with hd | hd <;> subst hd <;> exact ⟨by decide, Or.inr (by decide)⟩
  · simp only [List.mem_cons, List.not_mem_nil, or_false] at hd
    subst hd
    exact ⟨by omega, Or.inl rfl⟩
  · obtain ⟨ha, hb, hc2, hd2, he2⟩ := escU_mem _ d hd
    exact ⟨ha, Or.inr ⟨hb, hc2, hd2, he2⟩⟩
  · rcases List.mem_append.mp hd with hq | hq <;>
    · obtain ⟨ha, hb, hc2, hd2, he2⟩ := escU_mem _ d hq
      exact ⟨ha, Or.inr ⟨hb, hc2, hd2, he2⟩⟩

theorem escString_mem : ∀ (s : List Char) (d : Char), d ∈ escString s →
    d.toNat < 128 ∧
      (d ∈ s ∨ (d.toNat ≠ 32 ∧ d.toNat ≠ 9 ∧ d.toNat ≠ 10 ∧ d.toNat ≠ 13))
  | [], d, hq => by simp [escString] at hq
  | c :: r, d, hd => by
    simp only [escString, List.mem_append] at hd
    rcases hd with hd | hd
    · have := escChar_mem c d hd
      refine ⟨this.1, ?_⟩
      rcases this.2 with he | he
      · exact Or.inl (by simp [he])
      · exact Or.inr he
    · have := escString_mem r d hd
      refine ⟨this.1, ?_⟩
      rcases this.2 with he | he
      · exact Or.inl (by simp [he])
      · exact Or.inr he

theorem natDigits_mem : ∀ n d, d ∈ natDigits n → ∃ v, v < 10 ∧ d = digitChar v := by
  intro n
  induction n using natDigitVals.induct with
  | case1 n h =>
    intro d hd
    rw [natDigits_eq, if_pos h] at hd
    simp only [List.mem_cons, List.not_mem_nil, or_false] at hd
    exact ⟨n, h, hd⟩
  | case2 n h ih =>
    intro d hd
    rw [natDigits_eq, if_neg h] at hd
    simp only [List.mem_append, List.mem_cons, List.not_mem_nil, or_false] at hd
    rcases hd with hd | hd
    · exact ih d hd
    · exact ⟨n % 10, by omega, hd⟩

theorem pyIntRepr_mem (i : Int) (d : Char) (hd : d ∈ pyIntRepr i) :
    d.toNat < 128 ∧ d.toNat ≠ 32 ∧ d.toNat ≠ 9 ∧ d.toNat ≠ 10 ∧ d.toNat ≠ 13 := by
  unfold pyIntRepr at hd
  have hdig : ∀ e, e ∈ natDigits i.natAbs →
      e.toNat < 128 ∧ e.toNat ≠ 32 ∧ e.toNat ≠ 9 ∧ e.toNat ≠ 10 ∧ e.toNat ≠ 13 := by
    intro e he
    obtain ⟨v, hv, hev⟩ := natDigits_mem _ e he
    subst hev
    rw [digitChar_toNat hv]
    omega
  split_ifs at hd
  · simp only [List.mem_cons] at hd
    rcases hd with hd | hd
    · subst hd; exact ⟨by decide, by decide, by decide, by decide, by decide⟩
    · exact hdig d hd
  · exact hdig d hd

theorem dumpJVal_mem (v : JVal) (d : Char) (hd : d ∈ dumpJVal v) :
    d.toNat < 128 ∧
      (d ∈ jvalChars v ∨ (d.toNat ≠ 32 ∧ d.toNat ≠ 9 ∧ d.toNat ≠ 10 ∧ d.toNat ≠ 13)) := by
  cases v with
  | s s' =>
    simp only [dumpJVal, dumpString, List.mem_cons, List.mem_append,
      List.not_mem_nil, or_false] at hd
    rcases hd with hd | hd | hd
    · subst hd; exact ⟨by decide, Or.inr (by decide)⟩
    · have := escString_mem s' d hd
      exact ⟨this.1, by simpa [jvalChars] using this.2⟩
    · subst hd; exact ⟨by decide, Or.inr (by decide)⟩
  | i iv =>
    have := pyIntRepr_mem iv d hd
    exact ⟨this.1, Or.inr this.2⟩

theorem dictGet_payload_c (p : LicensePayload) (dflt : JVal) :
    dictGet (payloadPairs p) ['c'] dflt = .s p.c := rfl

theorem dictGet_payload_e (p : LicensePayload) (dflt : JVal) :
    dictGet (payloadPairs p) ['e'] dflt = .i p.e := rfl

theorem dictGet_payload_id (p : LicensePayload) (dflt : JVal) :
    dictGet (payloadPairs p) ['i', 'd'] dflt = .s p.id := rfl

theorem dictGet_payload_n (p : LicensePayload) (dflt : JVal) :
    dictGet (payloadPairs p) ['n'] dflt = .s p.n := rfl

/-! ### The canonical payload text is ASCII, and the round trip -/

theorem dumpPair_ascii (pr : List Char × JVal) : ∀ d ∈ dumpPair pr, d.toNat < 128 := by
  obtain ⟨k, v⟩ := pr
  intro d hd
  simp only [dumpPair, dumpString, List.mem_append, List.mem_cons,
    List.not_mem_nil, or_false] at hd
  rcases hd with (hd | hd | hd) | hd | hd
  · subst hd; decide
  · exact (escString_mem k d hd).1
  · subst hd; decide
  · subst hd; decide
  · exact (dumpJVal_mem v d hd).1

theorem dumpMembers_ascii : ∀ ps : List (List Char × JVal),
    ∀ d ∈ dumpMembers ps, d.toNat < 128
  | [] => by simp [dumpMembers]
  | [pr] => by
    simpa [dumpMembers] using dumpPair_ascii pr
  | pr :: q :: ps => by
    intro d hd
    simp only [dumpMembers, List.mem_append, List.mem_cons] at hd
    rcases hd with hd | hd | hd
    · exact dumpPair_ascii pr d hd
    · subst hd; decide
    · exact dumpMembers_ascii (q :: ps) d hd

theorem pyJsonDumpsFlat_ascii (ps : List (List Char × JVal)) :
    ∀ d ∈ pyJsonDumpsFlat ps, d.toNat < 128 := by
  intro d hd
  simp only [pyJsonDumpsFlat, List.mem_cons, List.mem_append,
    List.not_mem_nil, or_false] at hd
  rcases hd with hd | hd | hd
  · subst hd; decide
  · exact dumpMembers_ascii ps d hd
  · subst hd; decide

theorem payloadJson_ascii (p : LicensePayload) :
    ∀ d ∈ payloadJson p, d.toNat < 128 :=
  pyJsonDumpsFlat_ascii (payloadPairs p)

/-- payload_json.encode('utf-8') on the canonical (all-ASCII) JSON text is
the plain codepoint sequence. -/
theorem payloadBytes_eq_map (p : LicensePayload) :
    payloadBytes p = (payloadJson p).map Char.toNat :=
  utf8Encode_ascii (payloadJson_ascii p)

theorem payloadBytes_lt_256 (p : LicensePayload) :
    ∀ b ∈ payloadBytes p, b < 256 := by
  intro b hb
  rw [payloadBytes_eq_map] at hb
  obtain ⟨d, hd, he⟩ := List.mem_map.mp hb
  have := payloadJson_ascii p d hd
  omega

theorem payloadB64_no_dot (p : LicensePayload) : '.' ∉ payloadB64 p := by
  intro hmem
  obtain ⟨n, he⟩ := mem_b64enc _ _ hmem
  exact b64char_ne_dot n he.symm

theorem sigB64_no_dot (bs : List Nat) : '.' ∉ b64enc bs := by
  intro hmem
  obtain ⟨n, he⟩ := mem_b64enc _ _ hmem
  exact b64char_ne_dot n he.symm

theorem mint_not_space (sign : List Nat → List Nat) (p : LicensePayload) :
    ∀ ch ∈ mint sign p, isPySpace ch = false := by
  intro ch hch
  simp only [mint, lxfw, List.mem_append, List.mem_cons, List.not_mem_nil,
    or_false] at hch
  rcases hch with (hch | hch | hch | hch) | hch | hch | hch | hch
  · subst hch; decide
  · subst hch; decide
  · subst hch; decide
  · subst hch; decide
  · subst hch; decide
  · obtain ⟨n, he⟩ := mem_b64enc _ _ hch
    subst he
    exact b64char_not_space n
  · subst hch; decide
  · obtain ⟨n, he⟩ := mem_b64enc _ _ hch
    subst he
    exact b64char_not_space n

/-- Splitting a minted token on the dot yields exactly the three fields. -/
theorem pySplit_mint (sign : List Nat → List Nat) (p : LicensePayload) :
    pySplit '.' (mint sign p) =
      [lxfw, payloadB64 p, b64enc (sign (signedBytes p))] := by
  unfold mint
  rw [pySplit_append _ (by decide : '.' ∉ lxfw),
    pySplit_append _ (payloadB64_no_dot p),
    pySplit_no_sep (sigB64_no_dot _)]

/-- The b64 decode step of cmd_verify inverts the encode step of
cmd_generate. -/
theorem decodePad2_payloadB64 (p : LicensePayload) :
    urlsafeDecodePad2 (payloadB64 p) = some (payloadBytes p) := by
  unfold urlsafeDecodePad2 payloadB64
  exact a2b_b64enc (payloadBytes p) (payloadBytes_lt_256 p)

theorem utf8Decode_payloadBytes (p : LicensePayload) :
    utf8Decode (payloadBytes p) = some (payloadJson p) := by
  rw [payloadBytes_eq_map]
  exact utf8Decode_ascii (payloadJson_ascii p)

/-- cmd_verify recovers exactly the dict cmd_generate serialized. -/
theorem verifyPayload_mint (sign : List Nat → List Nat) (p : LicensePayload) :
    verifyPayload (mint sign p) = .parsed (payloadPairs p) := by
  unfold verifyPayload
  rw [pyStrip_eq_self (mint_not_space sign p)]
  dsimp only
  rw [pySplit_mint]
  dsimp only
  rw [if_pos rfl, decodePad2_payloadB64]
  dsimp only
  rw [utf8Decode_payloadBytes]
  dsimp only
  rw [show payloadJson p = pyJsonDumpsFlat (payloadPairs p) from rfl,
    pyJsonLoadsFlat_dump]

/-! ### Auxiliary facts feeding the claims -/

theorem dumpString_no_ws (s : List Char) (h : ∀ ch ∈ s, isJsonWs ch = false) :
    ∀ d ∈ dumpString s, isJsonWs d = false := by
  intro d hd
  simp only [dumpString, List.mem_cons, List.mem_append, List.not_mem_nil,
    or_false] at hd
  rcases hd with hd | hd | hd
  · subst hd; decide
  · rcases (escString_mem s d hd).2 with hds | hcodes
    · exact h d hds
    · exact isJsonWs_eq_false hcodes
  · subst hd; decide

theorem pyIntRepr_no_ws (i : Int) : ∀ d ∈ pyIntRepr i, isJsonWs d = false :=
  fun d hd => isJsonWs_eq_false (pyIntRepr_mem i d hd).2

/-- The exact canonical shape of the payload JSON: compact separators, keys
in the order c, e, id, n. -/
theorem payloadJson_shape (p : LicensePayload) :
    payloadJson p =
      ['{', '"', 'c', '"', ':'] ++ dumpString p.c ++
      [',', '"', 'e', '"', ':'] ++ pyIntRepr p.e ++
      [',', '"', 'i', 'd', '"', ':'] ++ dumpString p.id ++
      [',', '"', 'n', '"', ':'] ++ dumpString p.n ++ ['}'] := by
  simp [payloadJson, pyJsonDumpsFlat, payloadPairs, dumpMembers, dumpPair,
    dumpJVal, dumpString, escString, escChar]

theorem payloadJson_no_ws (p : LicensePayload)
    (h : ∀ ch ∈ p.c ++ p.id ++ p.n, isJsonWs ch = false) :
    ∀ d ∈ payloadJson p, isJsonWs d = false := by
  have hc : ∀ ch ∈ p.c, isJsonWs ch = false := fun ch hm => h ch (by simp [hm])
  have hid : ∀ ch ∈ p.id, isJsonWs ch = false := fun ch hm => h ch (by simp [hm])
  have hn : ∀ ch ∈ p.n, isJsonWs ch = false := fun ch hm => h ch (by simp [hm])
  intro d hd
  rw [payloadJson_shape] at hd
  simp only [List.mem_append, List.mem_cons, List.not_mem_nil, or_false] at hd
  rcases hd with ((((((((hd | hd | hd | hd | hd) | hd) |
      (hd | hd | hd | hd | hd)) | hd) | (hd | hd | hd | hd | hd | hd)) | hd) |
      (hd | hd | hd | hd | hd)) | hd) | hd
  case _ => subst hd; decide
  case _ => subst hd; decide
  case _ => subst hd; decide
  case _ => subst hd; decide
  case _ => subst hd; decide
  case _ => exact dumpString_no_ws p.c hc d hd
  case _ => subst hd; decide
  case _ => subst hd; decide
  case _ => subst hd; decide
  case _ => subst hd; decide
  case _ => subst hd; decide
  case _ => exact pyIntRepr_no_ws p.e d hd
  case _ => subst hd; decide
  case _ => subst hd; decide
  case _ => subst hd; decide
  case _ => subst hd; decide
  case _ => subst hd; decide
  case _ => subst hd; decide
  case _ => exact dumpString_no_ws p.id hid d hd
  case _ => subst hd; decide
  case _ => subst hd; decide
  case _ => subst hd; decide
  case _ => subst hd; decide
  case _ => subst hd; decide
  case _ => exact dumpString_no_ws p.n hn d hd
  case _ => subst hd; decide

/-- The parse phase of cmd_verify inverts mint: the payload fields come back
exactly, with the expired flag now_ms greater than e. -/
theorem verifyParse_mint (sign : List Nat → List Nat) (now : Int)
    (p : LicensePayload) :
    verifyParse now (mint sign p) =
      .ok ⟨.s p.c, .s p.id, .s p.n, p.e, decide (now > p.e)⟩ := by
  unfold verifyParse
  rw [verifyPayload_mint]
  dsimp only
  rw [dictGet_payload_e]
  dsimp only
  rw [dictGet_payload_c, dictGet_payload_id, dictGet_payload_n]

/-- The UTC success predicate of line 336 obeys the timezone-universal
fromtimestamp bound. -/
theorem fromtimestampOkUTC_sound : displaySound fromtimestampOkUTC := by
  intro ms h
  simp only [fromtimestampOkUTC, decide_eq_true_eq] at h
  omega

/-! ## The claims -/

/-- C1: the claim states that flipping any single byte of the payload or
signature segment of a minted token makes verification return BadSignature.
On the code this is false: cmd_verify never invokes Ed25519 verification —
its result type has no bad-signature outcome at all — and it accepts the
same payload under two signature segments that differ in exactly one byte
(at most one of which can decode to the genuine Ed25519 signature of the
payload).  The specification's demand is the clear intent of an Ed25519
signed-token scheme (the generate command even self-verifies at line 210),
so the divergence is a defect of the code, witnessed here by evaluating the
embedded cmd_verify at the two tokens. -/
theorem c1_verify_accepts_tampered_signature :
    verifyParse 1 tokDemoA = .ok outDemo ∧ verifyParse 1 tokDemoB = .ok outDemo := by
  constructor <;> decide

/-- C2: the claim states that verify of a minted token succeeds and returns
the payload for every valid payload with integer expiry_ms.  On the code
this fails: parsing does invert mint (verifyParse_mint above), but before
the expired flag is ever computed, line 336 formats the expiry with
datetime.fromtimestamp(expiry_ms / 1000) and an expiry such as -10^14 ms
makes that raise an uncaught ValueError in every timezone, killing the
command — so the divergence is a defect of the code.  The theorem holds for
every signing function, every clock, every payload with expiry at most
-7 * 10^13 ms, and every line 336 success predicate obeying the
timezone-universal fromtimestamp bound: the run crashes and no success
outcome is reported. -/
theorem c2_verify_mint_crashes_on_out_of_range_expiry
    (sign : List Nat → List Nat) (ok : Int → Bool) (hok : displaySound ok)
    (now : Int) (p : LicensePayload) (he : p.e ≤ -70000000000000) :
    cmd_verify_display ok now (mint sign p) = .crashed ∧
    ∀ o, cmd_verify_display ok now (mint sign p) ≠ .success o := by
  have hfalse : ok p.e = false := by
    cases hv : ok p.e with
    | false => rfl
    | true => exact absurd (hok p.e hv).1 (by omega)
  have hrun : cmd_verify_display ok now (mint sign p) = .crashed := by
    unfold cmd_verify_display
    rw [verifyParse_mint]
    dsimp only
    rw [hfalse]
    exact if_neg (by decide)
  exact ⟨hrun, fun o h => by rw [hrun] at h; exact VerifyRun.noConfusion h⟩

theorem c2_crash_witness :
    displaySound fromtimestampOkUTC ∧
    pAncient.e ≤ -70000000000000 ∧
    (cmd_verify_display fromtimestampOkUTC 0 (mint (fun _ => []) pAncient) =
      .crashed ∧
     ∀ o, cmd_verify_display fromtimestampOkUTC 0 (mint (fun _ => []) pAncient) ≠
      .success o) :=
  ⟨fromtimestampOkUTC_sound, by decide,
   c2_verify_mint_crashes_on_out_of_range_expiry (fun _ => []) fromtimestampOkUTC
     fromtimestampOkUTC_sound 0 pAncient (by decide)⟩

/-- C3 counterexample: the claim states that an authenticated-decryption
failure aborts the entire calling command.  The verify command is a calling
command of the registry open, yet with a failing decryption oracle it runs
to completion: load_registry raises the fatal exit, but cmd_verify catches
SystemExit and merely skips the registry lookup. -/
theorem c3_counterexample_verify_not_aborted :
    cmd_verify_run decryptFail parseNone kdfZero [] fsLocked 1 tokDemoC ['h'] =
      .completed (.ok outDemo, some .skipped) ∧
    cmd_verify_run decryptFail parseNone kdfZero [] fsLocked 1 tokDemoC ['h'] ≠
      CommandOutcome.aborted := by
  constructor <;> decide

/-- C3 as amended: when authenticated decryption of a present registry blob
fails, load_registry never returns an entry sequence — it takes the fatal
RegistryAuthFailure exit, which aborts the list, export, stats and generate
commands entirely; the verify command catches the exit and only its registry
lookup is skipped. -/
theorem c3_auth_failure_fatal
    (decrypt : List Nat → List Nat → List Nat → Option (List Nat))
    (parseEntries : List Nat → Option (List RegistryEntry))
    (kdf : List Char → List Nat → List Nat)
    (password : List Char) (fs : RegFS) (data salt : List Nat)
    (h1 : fs.registryFile = some data) (h2 : fs.saltFile = some salt)
    (h3 : 12 ≤ data.length)
    (h4 : decrypt (kdf password salt) (data.take 12) (data.drop 12) = none) :
    load_registry decrypt parseEntries kdf password fs = .fatalExit ∧
    (∀ l, load_registry decrypt parseEntries kdf password fs ≠ .entries l) ∧
    cmd_list_run decrypt parseEntries kdf password fs = .aborted ∧
    ∀ bh, cmd_verify_registry_phase decrypt parseEntries kdf password fs bh =
      .skipped := by
  have hload : load_registry decrypt parseEntries kdf password fs = .fatalExit := by
    unfold load_registry
    rw [h1]
    dsimp only
    rw [h2]
    dsimp only
    rw [if_neg (by omega : ¬data.length < 12), h4]
  refine ⟨hload, fun l hl => ?_, ?_, fun bh => ?_⟩
  · rw [hload] at hl
    exact absurd hl (by simp)
  · unfold cmd_list_run
    rw [hload]
  · unfold cmd_verify_registry_phase
    rw [hload]

theorem c3_witness :
    load_registry decryptFail parseNone kdfZero [] fsLocked = .fatalExit ∧
    load_registry decryptFail parseNone kdfZero [] fsLocked ≠ .entries [] ∧
    cmd_list_run decryptFail parseNone kdfZero [] fsLocked = .aborted ∧
    cmd_verify_registry_phase decryptFail parseNone kdfZero [] fsLocked ['h'] =
      .skipped :=
  let h := c3_auth_failure_fatal decryptFail parseNone kdfZero [] fsLocked
    (List.replicate 12 0 ++ [1]) [0] rfl rfl (by decide) rfl
  ⟨h.1, h.2.1 [], h.2.2.1, h.2.2.2 ['h']⟩

/-- C4: the claim states that a present registry blob with a missing salt
artifact makes the open fail with the fatal RegistryCorrupt error.  On the
code this is false: load_registry prints its corruption warning and then
returns the empty entry list as if no license had ever been issued — the
very silent degradation the specification flags as unsafe, and the
specification itself records that the source diverges here.  The embedded
load_registry, evaluated at such a state, returns the empty sequence and
does not take the fatal exit (its result type has no corrupt outcome at
all). -/
theorem c4_missing_salt_returns_empty :
    load_registry decryptFail parseNone kdfZero [] ⟨some [0], none⟩ =
      .entries [] ∧
    load_registry decryptFail parseNone kdfZero [] ⟨some [0], none⟩ ≠
      .fatalExit := by
  constructor <;> decide

/-- C5: canonical serialization.  The payload JSON has the exact compact
shape with keys in the order c, e, id, n and the only separators the colon
and the comma; two payloads with equal field values serialize to
byte-identical JSON, hence any signing function sees identical bytes; and
whenever the field values contain no JSON whitespace, the serialized text
contains none either, so the serialization introduces no whitespace of its
own. -/
theorem c5_canonical_serialization (sign : List Nat → List Nat)
    (p q : LicensePayload) (hc : p.c = q.c) (he : p.e = q.e)
    (hid : p.id = q.id) (hn : p.n = q.n) :
    payloadJson p =
      ['{', '"', 'c', '"', ':'] ++ dumpString p.c ++
      [',', '"', 'e', '"', ':'] ++ pyIntRepr p.e ++
      [',', '"', 'i', 'd', '"', ':'] ++ dumpString p.id ++
      [',', '"', 'n', '"', ':'] ++ dumpString p.n ++ ['}'] ∧
    payloadJson p = payloadJson q ∧
    sign (signedBytes p) = sign (signedBytes q) ∧
    ((∀ ch ∈ p.c ++ p.id ++ p.n, isJsonWs ch = false) →
      ∀ d ∈ payloadJson p, isJsonWs d = false) := by
  have hpq : p = q := by
    cases p
    cases q
    simp_all
  subst hpq
  exact ⟨payloadJson_shape p, rfl, rfl, payloadJson_no_ws p⟩

theorem c5_witness :
    payloadJson pDemo =
      ['{', '"', 'c', '"', ':'] ++ dumpString pDemo.c ++
      [',', '"', 'e', '"', ':'] ++ pyIntRepr pDemo.e ++
      [',', '"', 'i', 'd', '"', ':'] ++ dumpString pDemo.id ++
      [',', '"', 'n', '"', ':'] ++ dumpString pDemo.n ++ ['}'] ∧
    payloadJson pDemo = payloadJson pDemoCopy :=
  let h := c5_canonical_serialization (fun _ => []) pDemo pDemoCopy rfl rfl rfl rfl
  ⟨h.1, h.2.1⟩

/-- C6 counterexample: the claim states that every save writes the registry
atomically by writing a temporary file and renaming it over the registry
path.  The trace of the embedded save_registry at a concrete state is a
single direct write of the registry path and matches no
write-temporary-then-rename shape. -/
theorem c6_counterexample_no_atomic_replace :
    ¬ specAtomicReplaceSave
        (save_registry_ops encId kdfZero serEmpty [9] [1] [] ⟨some [], some [7]⟩ []) := by
  intro hcl
  obtain ⟨pre, tmp, data, hne, heq⟩ := hcl
  have hlen := congrArg List.length heq
  simp [save_registry_ops, List.length_append] at hlen

/-- C6 as amended: every save writes nonce plus ciphertext to the registry
path in one direct write as the final file operation (preceded only by the
salt write on first save), and the trace contains no rename at all, so a
process interruption mid-write can leave a partially written registry
file. -/
theorem c6_save_is_direct_write
    (encrypt : List Nat → List Nat → List Nat → List Nat)
    (kdf : List Char → List Nat → List Nat)
    (serializeEntries : List RegistryEntry → List Nat)
    (freshSalt freshNonce : List Nat) (password : List Char) (fs : RegFS)
    (entries : List RegistryEntry) :
    (save_registry_ops encrypt kdf serializeEntries freshSalt freshNonce password
        fs entries).getLast? =
      some (.writeFile registryPath (freshNonce ++
        encrypt (kdf password (match fs.saltFile with
          | none => freshSalt
          | some s => s)) freshNonce (serializeEntries entries))) ∧
    ∀ op ∈ save_registry_ops encrypt kdf serializeEntries freshSalt freshNonce
        password fs entries, op.isReplace = false := by
  unfold save_registry_ops
  cases hs : fs.saltFile with
  | none =>
    refine ⟨rfl, ?_⟩
    intro op hop
    simp only [List.nil_append, List.mem_cons, List.mem_append,
      List.not_mem_nil, or_false] at hop
    rcases hop with hop | hop <;> subst hop <;> rfl
  | some s =>
    refine ⟨rfl, ?_⟩
    intro op hop
    simp only [List.nil_append, List.mem_cons, List.not_mem_nil, or_false] at hop
    subst hop
    rfl

/-- C7: the display-time status is the expired text exactly when expiry_ms
is positive, the current time is past it, and the stored status is not
revoked; in every other case the stored status is shown verbatim.  The
stored status is one of the three lifecycle states of the data model. -/
theorem c7_effective_status_iff (en : RegistryEntry) (now : Int)
    (h : en.status = issuedStr ∨ en.status = activatedStr ∨ en.status = revokedStr) :
    (effective_status en now = scadutaStr ↔
      (en.expiry_ms > 0 ∧ now > en.expiry_ms ∧ en.status ≠ revokedStr)) ∧
    (¬(en.expiry_ms > 0 ∧ now > en.expiry_ms ∧ en.status ≠ revokedStr) →
      effective_status en now = en.status) := by
  unfold effective_status
  by_cases hcond : en.expiry_ms > 0 ∧ now > en.expiry_ms ∧ en.status ≠ revokedStr
  · rw [if_pos hcond]
    exact ⟨⟨fun _ => hcond, fun _ => rfl⟩, fun hno => absurd hcond hno⟩
  · rw [if_neg hcond]
    refine ⟨⟨fun hs => ?_, fun hcc => absurd hcc hcond⟩, fun _ => rfl⟩
    rcases h with h | h | h <;> rw [h] at hs <;> exact absurd hs (by decide)

theorem c7_witness :
    ((effective_status enDemo 20 = scadutaStr ↔
      (enDemo.expiry_ms > 0 ∧ (20 : Int) > enDemo.expiry_ms ∧
        enDemo.status ≠ revokedStr)) ∧
    (¬(enDemo.expiry_ms > 0 ∧ (20 : Int) > enDemo.expiry_ms ∧
        enDemo.status ≠ revokedStr) →
      effective_status enDemo 20 = enDemo.status)) :=
  c7_effective_status_iff enDemo 20 (Or.inl rfl)

/-- C8: the claim states that for every token with a valid signature whose
expiry e satisfies now_ms > e — e zero or negative explicitly included —
verify still returns the payload with expired = true, expiry never causing
verification to fail.  On the code this fails: for an expiry at most
-7 * 10^13 ms (before year 1 in every timezone), line 336 raises an uncaught
ValueError from datetime.fromtimestamp before the expired flag of line 338
is ever computed, and the command dies with a traceback — expiry handling
here is fatal, a defect of the code.  The theorem states it for every token
the parse phase accepts (the code checks no signature, so every validly
signed token is among them) whose parsed expiry is now in the past and below
the bound, for every line 336 success predicate obeying the
timezone-universal fromtimestamp bound. -/
theorem c8_ancient_expiry_is_fatal
    (ok : Int → Bool) (hok : displaySound ok) (now : Int) (raw : List Char)
    (o : VerifyOut) (hparse : verifyParse now raw = .ok o)
    (hnow : now > o.e) (he : o.e ≤ -70000000000000) :
    cmd_verify_display ok now raw = .crashed ∧
    ∀ o2, cmd_verify_display ok now raw ≠ .success o2 := by
  have hfalse : ok o.e = false := by
    cases hv : ok o.e with
    | false => rfl
    | true => exact absurd (hok o.e hv).1 (by omega)
  have hrun : cmd_verify_display ok now raw = .crashed := by
    unfold cmd_verify_display
    rw [hparse]
    dsimp only
    rw [hfalse]
    exact if_neg (by decide)
  exact ⟨hrun, fun o2 h => by rw [hrun] at h; exact VerifyRun.noConfusion h⟩

theorem c8_crash_witness :
    verifyParse 0 (mint (fun _ => []) pAncient2) = .ok outAncient2 ∧
    (0 : Int) > outAncient2.e ∧
    outAncient2.e ≤ -70000000000000 ∧
    (cmd_verify_display fromtimestampOkUTC 0 (mint (fun _ => []) pAncient2) =
      .crashed ∧
     ∀ o2, cmd_verify_display fromtimestampOkUTC 0
        (mint (fun _ => []) pAncient2) ≠ .success o2) :=
  have hp : verifyParse 0 (mint (fun _ => []) pAncient2) = .ok outAncient2 :=
    verifyParse_mint (fun _ => []) 0 pAncient2
  ⟨hp, by decide, by decide,
   c8_ancient_expiry_is_fatal fromtimestampOkUTC fromtimestampOkUTC_sound 0
     (mint (fun _ => []) pAncient2) outAncient2 hp (by decide) (by decide)⟩

/-- C9: when the requested id already occurs among the registry entries,
the registration phase of cmd_generate surfaces the duplicate (the warning
flag), appends nothing and saves nothing unless the operator's stripped,
lowered answer is the letter s, and can only have appended when that
confirmation was given. -/
theorem c9_duplicate_id_requires_confirmation (registry : List RegistryEntry)
    (keyId : List Char) (entry : RegistryEntry) (confirm : List Char)
    (hdup : keyId ∈ registry.map (·.id)) :
    (generate_register_step registry keyId entry confirm).warnedDuplicate = true ∧
    (pyLower (pyStrip confirm) ≠ ['s'] →
      (generate_register_step registry keyId entry confirm).registry = registry ∧
      (generate_register_step registry keyId entry confirm).saved = false) ∧
    ((generate_register_step registry keyId entry confirm).saved = true →
      pyLower (pyStrip confirm) = ['s']) := by
  unfold generate_register_step
  rw [if_pos hdup]
  by_cases hcf : pyLower (pyStrip confirm) ≠ ['s']
  · rw [if_pos hcf]
    exact ⟨rfl, fun _ => ⟨rfl, rfl⟩, fun hs => Bool.noConfusion hs⟩
  · rw [if_neg hcf]
    push_neg at hcf
    exact ⟨rfl, fun hne => absurd hcf hne, fun _ => hcf⟩

theorem c9_witness :
    (generate_register_step [enDemo] ['A', '1'] enDemo ['n']).warnedDuplicate = true ∧
    (pyLower (pyStrip ['n']) ≠ ['s'] →
      (generate_register_step [enDemo] ['A', '1'] enDemo ['n']).registry = [enDemo] ∧
      (generate_register_step [enDemo] ['A', '1'] enDemo ['n']).saved = false) ∧
    ((generate_register_step [enDemo] ['A', '1'] enDemo ['n']).saved = true →
      pyLower (pyStrip ['n']) = ['s']) :=
  c9_duplicate_id_requires_confirmation [enDemo] ['A', '1'] enDemo ['n'] (by decide)

/-- C10: the canonical payload JSON consists only of ASCII characters for
every payload, including client names with arbitrary unicode content,
because json.dumps escapes every character outside printable ASCII; hence
encoding to UTF-8 is exactly the codepoint sequence, every signed byte is
below 128, and the Base64 text and signature input are well defined for all
unicode client names. -/
theorem c10_canonical_json_ascii (p : LicensePayload) :
    (∀ d ∈ payloadJson p, d.toNat < 128) ∧
    payloadBytes p = (payloadJson p).map Char.toNat ∧
    ∀ b ∈ payloadBytes p, b < 128 := by
  refine ⟨payloadJson_ascii p, payloadBytes_eq_map p, ?_⟩
  intro b hb
  rw [payloadBytes_eq_map] at hb
  obtain ⟨d, hd, he⟩ := List.mem_map.mp hb
  have := payloadJson_ascii p d hd
  omega

end LexFlow
